import Mathlib

/-!
Verification development for the SQL schema extractor and comparator
(scripts/sql_parser.py and scripts/sql_comparator.py).

The Python code is shallowly embedded over lists of characters.  Python
strings become List Char, Python floats (only ever ratios of small machine
integers times 100 here) become Rat, Python dicts keyed by strings become
association-style lookups, and Python sets are modelled by first-occurrence
deduplicated lists (a deterministic refinement of the unspecified hash
iteration order; every claim below is insensitive to the order, only to
membership and cardinality).  Each regular expression of the source is
embedded as a bespoke recursive scanner implementing exactly the
leftmost-match, greedy/lazy backtracking semantics of the Python re module
for that pattern; the semantics implemented is recorded in each doc comment.
Text operations model the ASCII fragment of Python (upper, strip, the six
whitespace characters); all inputs exercised by the claims are ASCII.
The source line counters (start_line, end_line) and the unified line diff
(line_by_line_diff) are not modelled: no claim mentions them and they feed
back into no other computed field.
-/

/-- The characters Python str.strip and the regex class backslash-s treat as
whitespace (ASCII fragment): space, tab, newline, carriage return, vertical
tab, form feed. -/
def pySpace (c : Char) : Bool :=
  c = ' ' || c = '\t' || c = '\n' || c = '\r' || c = Char.ofNat 11 || c = Char.ofNat 12

/-- ASCII fragment of Python str.upper, applied characterwise. -/
def upperC (c : Char) : Char :=
  if 'a' ≤ c ∧ c ≤ 'z' then Char.ofNat (c.toNat - 32) else c

/-- ASCII fragment of Python str.lower, applied characterwise. -/
def lowerC (c : Char) : Char :=
  if 'A' ≤ c ∧ c ≤ 'Z' then Char.ofNat (c.toNat + 32) else c

/-- Python str.upper over a whole string. -/
def upperL (l : List Char) : List Char := l.map upperC

/-- Python str.lower over a whole string. -/
def lowerL (l : List Char) : List Char := l.map lowerC

/-- A Python word character (regex class backslash-w, ASCII fragment):
letters, digits, underscore. -/
def wordChar (c : Char) : Bool := c.isAlphanum || c = '_'

/-- Convert a string literal to the List Char representation used throughout. -/
def str (s : String) : List Char := s.data

/-- Python str.strip with no argument: drop leading and trailing whitespace. -/
def stripL (l : List Char) : List Char :=
  ((l.dropWhile pySpace).reverse.dropWhile pySpace).reverse

/-- Python s.split(sep) for a single-character separator: split at every
occurrence, keeping empty pieces. -/
def splitOnChar (sep : Char) : List Char → List (List Char)
  | [] => [[]]
  | c :: cs =>
    let rest := splitOnChar sep cs
    if c = sep then [] :: rest
    else
      match rest with
      | [] => [[c]]
      | p :: ps => (c :: p) :: ps

/-- Python s.split() with no argument: split on whitespace runs, dropping
empty pieces. -/
def splitWs : List Char → List (List Char)
  | [] => []
  | c :: cs =>
    if pySpace c then splitWs cs
    else
      match splitWs cs with
      | [] => [[c]]
      | p :: ps =>
        match cs with
        | [] => [[c]]
        | d :: _ => if pySpace d then [c] :: p :: ps else (c :: p) :: ps

/-- Python sep.join(parts). -/
def joinSep (sep : List Char) : List (List Char) → List Char
  | [] => []
  | [p] => p
  | p :: ps => p ++ sep ++ joinSep sep ps

/-- Python s.startswith(pat). -/
def startsWithL (pat l : List Char) : Bool := l.take pat.length = pat

/-- Python pat in s (substring containment). -/
def containsSub (pat : List Char) : List Char → Bool
  | [] => startsWithL pat []
  | c :: cs => startsWithL pat (c :: cs) || containsSub pat cs

/-- Python s.endswith(pat). -/
def endsWithL (pat l : List Char) : Bool := l.drop (l.length - pat.length) = pat

/-- Decimal digits with fuel (the fuel bounds the digit count; n plus one
always suffices, so the zero-fuel branch is unreachable from natChars). -/
def natCharsF : ℕ → ℕ → List Char
  | 0, _ => []
  | fuel + 1, n =>
    if n < 10 then [Char.ofNat (48 + n)]
    else natCharsF fuel (n / 10) ++ [Char.ofNat (48 + n % 10)]

/-- Python str(n) for a nonnegative int: decimal digits. -/
def natChars (n : ℕ) : List Char := natCharsF (n + 1) n

/-- First-occurrence deduplication: the model of building a Python set from a
list and then iterating over it (a deterministic refinement of the
unspecified set iteration order; the claims depend only on membership and
cardinality, never on the order). -/
def dedupFirst : List (List Char) → List (List Char)
  | [] => []
  | c :: cs => c :: (dedupFirst cs).filter (fun x => ¬ x = c)

/-- Python s.split(sep, 1)[0] for a multi-character separator: the text before
the first occurrence of sep, the whole string when sep does not occur. -/
def takeBeforeSub (sep : List Char) : List Char → List Char
  | [] => []
  | c :: cs => if startsWithL sep (c :: cs) then [] else c :: takeBeforeSub sep cs

/-- The maximal run of whitespace at the head (the text the greedy regex
backslash-s-star consumes). -/
def wsRun (l : List Char) : List Char := l.takeWhile pySpace

/-- Case-insensitive literal match at the head: when lowerL of the first
pat.length characters equals pat (pat given in lowercase), return the rest. -/
def ciDrop (pat l : List Char) : Option (List Char) :=
  if lowerL (l.take pat.length) = pat ∧ pat.length ≤ l.length
  then some (l.drop pat.length) else none

/-- Case-insensitive literal test at the head, as a Bool. -/
def ciTest (pat l : List Char) : Bool := (ciDrop pat l).isSome

/-- The leftmost-match search loop of re.search: try the head matcher at every
start position, leftmost first, including the empty suffix at the end. -/
def scanFirst (f : List Char → Option α) : List Char → Option α
  | [] => f []
  | c :: cs =>
    match f (c :: cs) with
    | some r => some r
    | none => scanFirst f cs

/-- Try a head matcher with the greedy run of k whitespace characters consumed,
for k from the maximal run length down to 1, longest first: the backtracking
order of a greedy backslash-s-plus followed by a lazy tail. -/
def tryKs (f : List Char → Option α) (base : List Char) : ℕ → Option α
  | 0 => none
  | k + 1 =>
    match f (base.drop (k + 1)) with
    | some r => some r
    | none => tryKs f base k

/-- At least one whitespace character at the head, then drop the maximal run:
the deterministic case of a greedy backslash-s-plus whose follower starts with
a non-whitespace character. -/
def ws1 (l : List Char) : Option (List Char) :=
  if (l.takeWhile pySpace).isEmpty then none else some (l.dropWhile pySpace)

/-- The maximal nonempty word-character run at the head (greedy
backslash-w-plus) and the rest. -/
def wordRun (l : List Char) : Option (List Char × List Char) :=
  match l.takeWhile wordChar with
  | [] => none
  | w => some (w, l.drop w.length)

/-- The optional dot part of the identifier pattern: after the first word run,
a dot followed by a second word run is consumed when present. -/
def dotTail (w rest : List Char) : List Char × List Char :=
  match rest with
  | '.' :: rest2 =>
    match wordRun rest2 with
    | some (w2, rest3) => (w ++ '.' :: w2, rest3)
    | none => (w, rest)
  | _ => (w, rest)

/-- The capture of the identifier pattern: a greedy word run, then optionally a
dot and a second word run (the optional group is greedy; nothing follows the
capture in the name patterns, so no backtracking can arise). -/
def identCap (l : List Char) : Option (List Char × List Char) :=
  (wordRun l).map (fun p => dotTail p.1 p.2)

/-- Head match of the VIEW name pattern: CREATE, whitespace, optional OR
REPLACE (deterministic: OR and VIEW start with different letters, so the
optional group and its absence can never both begin to match), VIEW,
whitespace, identifier capture. -/
def headView (l : List Char) : Option (List Char) := do
  let r1 ← ciDrop (str "create") l
  let r2 ← ws1 r1
  let r3 :=
    match (do
      let a ← ciDrop (str "or") r2
      let b ← ws1 a
      let c ← ciDrop (str "replace") b
      ws1 c) with
    | some r => r
    | none => r2
  let r4 ← ciDrop (str "view") r3
  let r5 ← ws1 r4
  let (nm, _) ← identCap r5
  some nm

/-- Head match of the MATERIALIZED VIEW name pattern. -/
def headMatView (l : List Char) : Option (List Char) := do
  let r1 ← ciDrop (str "create") l
  let r2 ← ws1 r1
  let r3 ← ciDrop (str "materialized") r2
  let r4 ← ws1 r3
  let r5 ← ciDrop (str "view") r4
  let r6 ← ws1 r5
  let (nm, _) ← identCap r6
  some nm

/-- Head match of the FUNCTION name pattern (same optional OR REPLACE shape as
the view pattern). -/
def headFunction (l : List Char) : Option (List Char) := do
  let r1 ← ciDrop (str "create") l
  let r2 ← ws1 r1
  let r3 :=
    match (do
      let a ← ciDrop (str "or") r2
      let b ← ws1 a
      let c ← ciDrop (str "replace") b
      ws1 c) with
    | some r => r
    | none => r2
  let r4 ← ciDrop (str "function") r3
  let r5 ← ws1 r4
  let (nm, _) ← identCap r5
  some nm

/-- Head match of the TABLE name pattern. -/
def headTable (l : List Char) : Option (List Char) := do
  let r1 ← ciDrop (str "create") l
  let r2 ← ws1 r1
  let r3 ← ciDrop (str "table") r2
  let r4 ← ws1 r3
  let (nm, _) ← identCap r4
  some nm

/-- Head match of the INDEX name pattern: CREATE, whitespace, optional UNIQUE
(deterministic: UNIQUE and INDEX start with different letters), INDEX,
whitespace, identifier capture. -/
def headIndexName (l : List Char) : Option (List Char) := do
  let r1 ← ciDrop (str "create") l
  let r2 ← ws1 r1
  let r3 :=
    match (do
      let a ← ciDrop (str "unique") r2
      ws1 a) with
    | some r => r
    | none => r2
  let r4 ← ciDrop (str "index") r3
  let r5 ← ws1 r4
  let (nm, _) ← identCap r5
  some nm

/-- Head match of the TRIGGER name pattern. -/
def headTrigger (l : List Char) : Option (List Char) := do
  let r1 ← ciDrop (str "create") l
  let r2 ← ws1 r1
  let r3 ← ciDrop (str "trigger") r2
  let r4 ← ws1 r3
  let (nm, _) ← identCap r4
  some nm

/-- Terminator of the lazy dot in the GRANT name pattern: whitespace, ON,
whitespace, identifier capture (each keyword starts with a non-whitespace
character, so the greedy whitespace runs are deterministic). -/
def grantTermAt (l : List Char) : Option (List Char) := do
  let a ← ws1 l
  let b ← ciDrop (str "on") a
  let c ← ws1 b
  let (nm, _) ← identCap c
  some nm

/-- The lazy dot-star of the GRANT pattern: grow from the empty capture, test
the terminator at each position, and stop growing at a newline (the pattern is
compiled without DOTALL, so the lazy dot cannot cross one; the terminator
itself may start at the newline, since backslash-s matches it). -/
def grantScan : List Char → Option (List Char)
  | [] => none
  | c :: cs =>
    match grantTermAt (c :: cs) with
    | some nm => some nm
    | none => if c = '\n' then none else grantScan cs

/-- Head match of the GRANT name pattern: GRANT, greedy whitespace (longest
split first), lazy dot-star, then the terminator. -/
def headGrant (l : List Char) : Option (List Char) := do
  let r1 ← ciDrop (str "grant") l
  let m := wsRun r1
  tryKs grantScan r1 m.length

/-- Head match of the COMMENT name pattern: COMMENT, whitespace, ON,
whitespace, identifier capture. -/
def headComment (l : List Char) : Option (List Char) := do
  let r1 ← ciDrop (str "comment") l
  let r2 ← ws1 r1
  let r3 ← ciDrop (str "on") r2
  let r4 ← ws1 r3
  let (nm, _) ← identCap r4
  some nm

/-- Head match of the pattern AS, whitespace, greedy dot-star with DOTALL: AS
followed by at least one whitespace character; the group is the rest of the
text after the maximal whitespace run (the greedy star never backtracks, so
the greedy whitespace run is maximal). -/
def headAs (l : List Char) : Option (List Char) := do
  let r ← ciDrop (str "as") l
  ws1 r

/-- The search for the defining query of a view: leftmost occurrence of AS
followed by whitespace; the group is everything after. -/
def searchAs (s : List Char) : Option (List Char) := scanFirst headAs s

/-- Terminator test of the lazy capture in the SELECT-to-FROM pattern:
whitespace then the literal FROM (FROM starts with a non-whitespace character,
so only the maximal whitespace run can precede it). -/
def fromTermAt (l : List Char) : Bool :=
  ¬ (wsRun l).isEmpty ∧ ciTest (str "from") (l.drop (wsRun l).length)

/-- The lazy capture growing toward the first whitespace-FROM terminator; none
when no terminator exists to the end of the text. -/
def fromScan : List Char → Option (List Char)
  | [] => none
  | c :: cs =>
    if fromTermAt (c :: cs) then some []
    else (fromScan cs).map (fun t => c :: t)

/-- Head match of the SELECT-list pattern: SELECT, greedy whitespace (longest
split first: a shorter split moves the lazy capture start left into the
whitespace), lazy capture, whitespace-FROM terminator. -/
def headSelect (l : List Char) : Option (List Char) := do
  let r ← ciDrop (str "select") l
  tryKs fromScan r (wsRun r).length

/-- re.search of the SELECT-list pattern over the select body. -/
def searchSelectFrom (sel : List Char) : Option (List Char) := scanFirst headSelect sel

/-- Whether a line-rest match of the no-DOTALL greedy dot-star begins here:
used by the column function-call rewrite; the greedy dot-star consumes to the
next newline or the end. -/
def dropLineRest (l : List Char) : List Char := l.dropWhile (fun c => ¬ c = '\n')

/-- The substitution re.sub of the column pattern: any characters other than an
opening parenthesis, an opening parenthesis, the capture of characters other
than a closing parenthesis, a closing parenthesis, then the greedy no-DOTALL
dot-star; each non-overlapping match is replaced by its capture.  A match
starting at any position reaches the first opening parenthesis (the leading
class cannot cross one) and its capture ends at the first closing parenthesis
after it; when no closing parenthesis follows any opening one the pattern
cannot match at any position and the text is unchanged.  Scanning resumes
after the matched line rest. -/
def parenSubF : ℕ → List Char → List Char
  | 0, l => l
  | fuel + 1, l =>
    match l.dropWhile (fun c => ¬ c = '(') with
    | [] => l
    | _ :: rest1 =>
      let mid := rest1.takeWhile (fun c => ¬ c = ')')
      match rest1.dropWhile (fun c => ¬ c = ')') with
      | [] => l
      | _ :: post => mid ++ parenSubF fuel (dropLineRest post)

/-- parenSubF with fuel one more than the length: every recursive step drops
at least two characters, so the fuel never runs out. -/
def parenSub (l : List Char) : List Char := parenSubF (l.length + 1) l

/-- One SELECT-list entry to its column name: strip, cut at a case-sensitive
AS-with-spaces separator when the uppercased entry contains one, rewrite a
function call to its argument list, keep the part after the last dot. -/
def colName (colRaw : List Char) : List Char :=
  let col := stripL colRaw
  let c1 :=
    if containsSub (str " AS ") (upperL col)
    then stripL (takeBeforeSub (str " AS ") col) else col
  let c2 := parenSub c1
  (splitOnChar '.' c2).getLastD []

/-- The column extractor of views: the SELECT-to-FROM capture split on commas,
each entry reduced to a column name, empty names and the star and DISTINCT
tokens dropped. -/
def extract_columns (sel : List Char) : List (List Char) :=
  match searchSelectFrom sel with
  | none => []
  | some cap =>
    (splitOnChar ',' cap).filterMap (fun c =>
      let n := colName c
      if ¬ n.isEmpty ∧ ¬ upperL n = str "*" ∧ ¬ upperL n = str "DISTINCT"
      then some n else none)

/-- Terminator test: whitespace then GROUP, whitespace, BY. -/
def gbTermAt (l : List Char) : Bool :=
  (do
    let a ← ws1 l
    let b ← ciDrop (str "group") a
    let c ← ws1 b
    ciDrop (str "by") c).isSome

/-- Terminator test: whitespace then ORDER, whitespace, BY. -/
def obTermAt (l : List Char) : Bool :=
  (do
    let a ← ws1 l
    let b ← ciDrop (str "order") a
    let c ← ws1 b
    ciDrop (str "by") c).isSome

/-- The lazy capture of the WHERE pattern: grow until whitespace-GROUP-BY,
whitespace-ORDER-BY, or the dollar anchor (end of text, or just before a
single trailing newline); the dollar alternative always succeeds eventually,
so this function is total over the whole remainder. -/
def whereBody : List Char → List Char
  | [] => []
  | c :: cs =>
    if gbTermAt (c :: cs) ∨ obTermAt (c :: cs) ∨ (c :: cs) = ['\n'] then []
    else c :: whereBody cs

/-- Head match of the WHERE pattern: WHERE, whitespace (maximal: the lazy
capture with a dollar alternative always succeeds, so the greedy run never
backtracks), lazy capture to the first terminator. -/
def headWhere (l : List Char) : Option (List Char) := do
  let r ← ciDrop (str "where") l
  let b ← ws1 r
  some (whereBody b)

/-- The WHERE clause extractor: leftmost match, group stripped; none when no
WHERE-plus-whitespace occurs. -/
def extract_where_clause (sel : List Char) : Option (List Char) :=
  (scanFirst headWhere sel).map stripL

/-- The lazy capture of the GROUP BY pattern: grow until whitespace-ORDER-BY or
the dollar anchor. -/
def groupBody : List Char → List Char
  | [] => []
  | c :: cs =>
    if obTermAt (c :: cs) ∨ (c :: cs) = ['\n'] then []
    else c :: groupBody cs

/-- Head match of the GROUP BY pattern. -/
def headGroupBy (l : List Char) : Option (List Char) := do
  let r1 ← ciDrop (str "group") l
  let r2 ← ws1 r1
  let r3 ← ciDrop (str "by") r2
  let b ← ws1 r3
  some (groupBody b)

/-- The GROUP BY clause extractor. -/
def extract_group_by (sel : List Char) : Option (List Char) :=
  (scanFirst headGroupBy sel).map stripL

/-- The lazy capture of the ORDER BY pattern: grow until the dollar anchor. -/
def orderBody : List Char → List Char
  | [] => []
  | c :: cs => if (c :: cs) = ['\n'] then [] else c :: orderBody cs

/-- Head match of the ORDER BY pattern. -/
def headOrderBy (l : List Char) : Option (List Char) := do
  let r1 ← ciDrop (str "order") l
  let r2 ← ws1 r1
  let r3 ← ciDrop (str "by") r2
  let b ← ws1 r3
  some (orderBody b)

/-- The ORDER BY clause extractor. -/
def extract_order_by (sel : List Char) : Option (List Char) :=
  (scanFirst headOrderBy sel).map stripL

/-- Python s.split(sep, 1)[1]: the text after the first occurrence of sep;
empty when sep does not occur (that case is guarded away at every use). -/
def afterSub (sep : List Char) : List Char → List Char
  | [] => []
  | c :: cs => if startsWithL sep (c :: cs) then (c :: cs).drop sep.length else afterSub sep cs

/-- One CTE entry of the WITH clause.  The Python dict with keys name and
definition. -/
structure CteD where
  name : List Char
  definition : List Char
deriving DecidableEq, Repr

/-- Terminator test for the WITH pattern: whitespace then SELECT. -/
def selTermAt (l : List Char) : Bool :=
  ¬ (wsRun l).isEmpty ∧ ciTest (str "select") (l.drop (wsRun l).length)

/-- The lazy capture growing toward the first whitespace-SELECT terminator. -/
def withScan : List Char → Option (List Char)
  | [] => none
  | c :: cs =>
    if selTermAt (c :: cs) then some []
    else (withScan cs).map (fun t => c :: t)

/-- Head match of the WITH-to-SELECT pattern (same shape as the SELECT-to-FROM
pattern). -/
def headWith (l : List Char) : Option (List Char) := do
  let r ← ciDrop (str "with") l
  tryKs withScan r (wsRun r).length

/-- The CTE extractor: the WITH-to-SELECT capture split on commas; an entry
whose uppercase form contains the AS-with-spaces separator is split at the
case-sensitive separator into name and definition.  When the case-insensitive
test passes but the case-sensitive separator is absent the Python unpacking
raises ValueError; no claim exercises that path and it is modelled as
producing no entry. -/
def extract_ctes (sel : List Char) : List CteD :=
  match scanFirst headWith sel with
  | none => []
  | some wc =>
    (splitOnChar ',' wc).filterMap (fun p =>
      let q := stripL p
      if containsSub (str " AS ") (upperL q) then
        if containsSub (str " AS ") q then
          some ⟨stripL (takeBeforeSub (str " AS ") q), stripL (afterSub (str " AS ") q)⟩
        else none
      else none)

/-- One JOIN entry: the Python dict with keys type, table, condition. -/
structure JoinD where
  jtype : List Char
  table : List Char
  condition : Option (List Char)
deriving DecidableEq, Repr

/-- Match a whitespace-separated case-insensitive keyword sequence at the head,
returning the original matched text and the rest (each keyword starts with a
non-whitespace character, so the greedy whitespace runs between keywords are
deterministic). -/
def matchWords : List (List Char) → List Char → Option (List Char × List Char)
  | [], l => some ([], l)
  | [w], l => do
    let r ← ciDrop w l
    some (l.take w.length, r)
  | w :: w2 :: ws, l => do
    let r ← ciDrop w l
    if (wsRun r).isEmpty then none
    else
      let gap := wsRun r
      let (txt, rest) ← matchWords (w2 :: ws) (r.drop gap.length)
      some (l.take w.length ++ gap ++ txt, rest)

/-- The join-keyword alternation, in the order of the pattern: LEFT JOIN,
RIGHT JOIN, INNER JOIN, JOIN, FULL OUTER JOIN. -/
def joinKws : List (List (List Char)) :=
  [[str "left", str "join"], [str "right", str "join"], [str "inner", str "join"],
   [str "join"], [str "full", str "outer", str "join"]]

/-- The alternation: try each keyword sequence in order (their first letters
are pairwise distinct, so at most one can match at a position and the listed
order is the regex alternation order with no cross-alternative backtracking). -/
def matchAlt : List (List (List Char)) → List Char → Option (List Char × List Char)
  | [], _ => none
  | alt :: alts, l =>
    match matchWords alt l with
    | some r => some r
    | none => matchAlt alts l

/-- The keyword test GROUP, whitespace, BY at the head. -/
def gbKwAt (r : List Char) : Bool :=
  (((ciDrop (str "group") r).bind ws1).bind (ciDrop (str "by"))).isSome

/-- The keyword test ORDER, whitespace, BY at the head. -/
def obKwAt (r : List Char) : Bool :=
  (((ciDrop (str "order") r).bind ws1).bind (ciDrop (str "by"))).isSome

/-- The keyword part of the join lookahead: one of the join keywords, WHERE,
GROUP BY or ORDER BY at the head. -/
def lookKwAt (r : List Char) : Bool :=
  (matchAlt joinKws r).isSome || ciTest (str "where") r || gbKwAt r || obKwAt r

/-- The lookahead of the join pattern: whitespace then one of the join
keywords, WHERE, GROUP BY, ORDER BY; or whitespace running to the very end
(the dollar anchor after at least one whitespace character; a position just
before a single trailing newline is inside such a run). -/
def lookTermAt (l : List Char) : Bool :=
  (!(wsRun l).isEmpty && lookKwAt (l.drop (wsRun l).length))
  || (!l.isEmpty && l.all pySpace)

/-- The lazy condition capture of the join pattern: grow from the empty
capture, test the lookahead at each position, stop at a newline (the pattern
is compiled without DOTALL).  Returns the capture and the resume suffix: the
lookahead is zero-width, so scanning resumes where the capture ends. -/
def condScan : List Char → Option (List Char × List Char)
  | [] => none
  | c :: cs =>
    if lookTermAt (c :: cs) then some ([], c :: cs)
    else if c = '\n' then none
    else (condScan cs).map (fun p => (c :: p.1, p.2))

/-- The optional ON group: ON, greedy whitespace (longest split first), lazy
condition capture ending at the lookahead. -/
def tryOn (l : List Char) : Option (List Char × List Char) := do
  let r ← ciDrop (str "on") l
  tryKs condScan r (wsRun r).length

/-- A full join-pattern match at this position: keyword alternation, mandatory
whitespace, identifier capture for the table (shrinking the greedy table
capture cannot help: the character after the maximal word run is not a word
character, and dropping the dot part leaves a dot, never whitespace),
mandatory whitespace (greedy, longest split first), then for each whitespace
split first the ON group and then its absence followed by the lookahead.  The
matched join type is uppercased; an empty condition capture is falsy in Python
and becomes None. -/
def joinMatchAt (l : List Char) : Option (JoinD × List Char) := do
  let (jtTxt, r1) ← matchAlt joinKws l
  let r1b ← ws1 r1
  let (tbl, r2) ← identCap r1b
  tryKs (fun after =>
    match tryOn after with
    | some (cond, resume) =>
      some (⟨upperL jtTxt, tbl, if cond.isEmpty then none else some cond⟩, resume)
    | none =>
      if lookTermAt after then some (⟨upperL jtTxt, tbl, none⟩, after) else none)
    r2 (wsRun r2).length

/-- The re.finditer loop of the join pattern: scan positions left to right,
emit each match and resume at its end.  Every iteration advances by at least
one character (a match consumes at least its join keyword), so fuel equal to
the length plus one never runs out. -/
def joinFindAll : ℕ → List Char → List JoinD
  | 0, _ => []
  | _, [] => []
  | fuel + 1, c :: cs =>
    match joinMatchAt (c :: cs) with
    | some (j, resume) => j :: joinFindAll fuel resume
    | none => joinFindAll fuel cs

/-- The JOIN extractor over the select body. -/
def extract_joins (sel : List Char) : List JoinD :=
  joinFindAll (sel.length + 1) sel

/-- The table-column extractor: the first parenthesised span (the lazy capture
of the parenthesis pattern ends at the first closing parenthesis; the greedy
whitespace pieces inside trim the capture at both ends), split on commas, each
entry stripped, entries starting with a constraint keyword skipped, the first
whitespace-delimited token kept.  When the first opening parenthesis has no
closing one after it the pattern matches nowhere. -/
def extract_table_columns (stmt : List Char) : List (List Char) :=
  match stmt.dropWhile (fun c => ¬ c = '(') with
  | [] => []
  | _ :: rest =>
    let mid := rest.takeWhile (fun c => ¬ c = ')')
    match rest.dropWhile (fun c => ¬ c = ')') with
    | [] => []
    | _ :: _ =>
      (splitOnChar ',' (stripL mid)).filterMap (fun cd0 =>
        let cd := stripL cd0
        if cd.isEmpty then none
        else if startsWithL (str "PRIMARY KEY") (upperL cd) ∨
            startsWithL (str "FOREIGN KEY") (upperL cd) ∨
            startsWithL (str "UNIQUE") (upperL cd) ∨
            startsWithL (str "CHECK") (upperL cd) then none
        else
          match splitWs cd with
          | [] => none
          | t :: _ => some t)

/-- Take a minimal block-comment body up to the closing star-slash; none when
no closer follows. -/
def blockTake : List Char → Option (List Char × List Char)
  | [] => none
  | c :: cs =>
    if startsWithL (str "*/") (c :: cs) then some ([], (c :: cs).drop 2)
    else (blockTake cs).map (fun p => (c :: p.1, p.2))

/-- The re.findall loop of the block-comment pattern slash-star lazy dot-star
star-slash with DOTALL: non-overlapping minimal matches, scanning resumes
after each match.  Fuel as for the join engine. -/
def blockScan : ℕ → List Char → List (List Char)
  | 0, _ => []
  | _, [] => []
  | fuel + 1, c :: cs =>
    if startsWithL (str "/*") (c :: cs) then
      match blockTake ((c :: cs).drop 2) with
      | some (body, rest) => (str "/*" ++ body ++ str "*/") :: blockScan fuel rest
      | none => blockScan fuel cs
    else blockScan fuel cs

/-- The comment extractor: stripped physical lines starting with a double
dash, then all block comments, in that order. -/
def extract_comments (stmt : List Char) : List (List Char) :=
  ((splitOnChar '\n' stmt).filterMap (fun ln =>
    let t := stripL ln
    if startsWithL (str "--") t then some t else none))
    ++ blockScan (stmt.length + 1) stmt

/-- Head match of the function-parameter pattern: FUNCTION, whitespace,
identifier, optional whitespace, an opening parenthesis, the lazy capture up
to the first closing parenthesis (DOTALL).  Shrinking the greedy identifier
capture cannot produce an opening parenthesis where the maximal one does not
(the next character is a word character or a dot, never one), so the match is
deterministic. -/
def headFuncParams (l : List Char) : Option (List Char) := do
  let r1 ← ciDrop (str "function") l
  let r2 ← ws1 r1
  let (_, r3) ← identCap r2
  match r3.dropWhile pySpace with
  | '(' :: rest =>
    match rest.dropWhile (fun c => ¬ c = ')') with
    | [] => none
    | _ :: _ => some (rest.takeWhile (fun c => ¬ c = ')'))
  | _ => none

/-- Head match of the RETURNS pattern: RETURNS, whitespace, a word run, then
optionally a parenthesised suffix up to the first closing parenthesis (the
greedy optional group is dropped when no closing parenthesis follows). -/
def headReturns (l : List Char) : Option (List Char) := do
  let r1 ← ciDrop (str "returns") l
  let r2 ← ws1 r1
  let (w, rest) ← wordRun r2
  match rest with
  | '(' :: r3 =>
    match r3.dropWhile (fun c => ¬ c = ')') with
    | [] => some w
    | _ :: _ => some (w ++ '(' :: r3.takeWhile (fun c => ¬ c = ')') ++ [')'])
  | _ => some w

/-- The object-type variants of the extractor. -/
inductive SQLObjectType where
  | VIEW
  | MATERIALIZED_VIEW
  | FUNCTION
  | TABLE
  | INDEX
  | TRIGGER
  | GRANT
  | COMMENT
  | CTE
deriving DecidableEq, Repr

/-- The value string of each variant (the Python enum values). -/
def typeValue : SQLObjectType → List Char
  | .VIEW => str "VIEW"
  | .MATERIALIZED_VIEW => str "MATERIALIZED_VIEW"
  | .FUNCTION => str "FUNCTION"
  | .TABLE => str "TABLE"
  | .INDEX => str "INDEX"
  | .TRIGGER => str "TRIGGER"
  | .GRANT => str "GRANT"
  | .COMMENT => str "COMMENT"
  | .CTE => str "CTE"

/-- The structural record of one extracted object.  The source line counters
start_line and end_line are not modelled: no claim mentions them and the
comparator never reads them.  The parameters, return_type and grants fields
default to None in the Python dataclass and are set only on the branches that
set them there. -/
structure SQLObject where
  name : List Char
  type : SQLObjectType
  definition : List Char
  comments : List (List Char)
  columns : List (List Char)
  joins : List JoinD
  where_clause : Option (List Char)
  group_by : Option (List Char)
  order_by : Option (List Char)
  ctes : List CteD
  parameters : Option (List (List Char)) := none
  return_type : Option (List Char) := none
  grants : Option (List (List Char)) := none
deriving DecidableEq, Repr

/-- The type classifier: case-insensitive prefix tests against the fixed,
ordered pattern table of the source, first match wins, none otherwise. -/
def get_object_type (s : List Char) : Option SQLObjectType :=
  let u := upperL s
  if startsWithL (str "CREATE OR REPLACE VIEW") u then some .VIEW
  else if startsWithL (str "CREATE MATERIALIZED VIEW") u then some .MATERIALIZED_VIEW
  else if startsWithL (str "CREATE OR REPLACE FUNCTION") u then some .FUNCTION
  else if startsWithL (str "CREATE TABLE") u then some .TABLE
  else if startsWithL (str "CREATE INDEX") u then some .INDEX
  else if startsWithL (str "CREATE TRIGGER") u then some .TRIGGER
  else if startsWithL (str "GRANT") u then some .GRANT
  else if startsWithL (str "COMMENT ON") u then some .COMMENT
  else none

/-- The name extractor: the per-type anchored pattern searched leftmost-first
over the statement (the patterns dict has no entry for the CTE variant, so
that lookup yields none). -/
def extract_object_name (s : List Char) : SQLObjectType → Option (List Char)
  | .VIEW => scanFirst headView s
  | .MATERIALIZED_VIEW => scanFirst headMatView s
  | .FUNCTION => scanFirst headFunction s
  | .TABLE => scanFirst headTable s
  | .INDEX => scanFirst headIndexName s
  | .TRIGGER => scanFirst headTrigger s
  | .GRANT => scanFirst headGrant s
  | .COMMENT => scanFirst headComment s
  | .CTE => none

/-- A basic object: name, type, definition and comments populated, every
structural field empty. -/
def basicObject (nm : List Char) (ty : SQLObjectType) (stmt : List Char)
    (comments : List (List Char)) : SQLObject :=
  { name := nm, type := ty, definition := stmt, comments := comments,
    columns := [], joins := [], where_clause := none, group_by := none,
    order_by := none, ctes := [] }

/-- The view and materialized-view parser: the select body is everything after
the first AS-plus-whitespace, stripped; every structural extractor runs over
it.  Without such an AS the basic object is returned. -/
def parse_view_or_mv (stmt nm : List Char) (ty : SQLObjectType)
    (comments : List (List Char)) : SQLObject :=
  match searchAs stmt with
  | none => basicObject nm ty stmt comments
  | some g =>
    let sel := stripL g
    { name := nm, type := ty, definition := stmt, comments := comments,
      columns := extract_columns sel, joins := extract_joins sel,
      where_clause := extract_where_clause sel, group_by := extract_group_by sel,
      order_by := extract_order_by sel, ctes := extract_ctes sel }

/-- The function parser: parameters from the stripped comma-split contents of
the parenthesis list after the name (an empty list when the pattern does not
match), return type from the first RETURNS occurrence. -/
def parse_function_obj (stmt nm : List Char) (comments : List (List Char)) : SQLObject :=
  let params :=
    match scanFirst headFuncParams stmt with
    | none => []
    | some ps =>
      (splitOnChar ',' ps).filterMap (fun p =>
        let q := stripL p
        if q.isEmpty then none else some q)
  { name := nm, type := .FUNCTION, definition := stmt, comments := comments,
    columns := [], joins := [], where_clause := none, group_by := none,
    order_by := none, ctes := [], parameters := some params,
    return_type := scanFirst headReturns stmt }

/-- The table parser: declared column names from the parenthesis body. -/
def parse_table (stmt nm : List Char) (comments : List (List Char)) : SQLObject :=
  { name := nm, type := .TABLE, definition := stmt, comments := comments,
    columns := extract_table_columns stmt, joins := [], where_clause := none,
    group_by := none, order_by := none, ctes := [] }

/-- The statement parser: strip, drop empty statements, classify, extract the
name (a falsy name, None or empty, drops the statement), extract comments,
then dispatch on the type.  INDEX, TRIGGER and GRANT produce basic objects
through their parsers; COMMENT and CTE fall to the basic-object else branch
of the source. -/
def parse_statement (raw : List Char) : Option SQLObject :=
  let s := stripL raw
  if s.isEmpty then none
  else
    match get_object_type s with
    | none => none
    | some ty =>
      match extract_object_name s ty with
      | none => none
      | some nm =>
        if nm.isEmpty then none
        else
          let comments := extract_comments s
          some (match ty with
            | .VIEW => parse_view_or_mv s nm .VIEW comments
            | .MATERIALIZED_VIEW => parse_view_or_mv s nm .MATERIALIZED_VIEW comments
            | .FUNCTION => parse_function_obj s nm comments
            | .TABLE => parse_table s nm comments
            | ty => basicObject nm ty s comments)

/-- The file-level extractor over an already-segmented statement list (the
statement segmenter itself is the external sqlparse library): the loop of the
source appends at most one object per statement, in order. -/
def parse_sql (stmts : List (List Char)) : List SQLObject :=
  stmts.filterMap parse_statement

/-- The number of occurrences of a character in a text. -/
def countIn (b : List Char) (c : Char) : ℕ := (b.filter (fun d => d = c)).length

/-- The difflib autojunk heuristic: with the default autojunk and no junk
predicate (the comparator constructs SequenceMatcher with None), when the
second sequence has at least 200 elements, an element occurring in more than
one percent of them (strictly more than length over one hundred, floored,
plus one) is popular and is deleted from the index map. -/
def isPopular (b : List Char) (c : Char) : Bool :=
  b.length ≥ 200 ∧ countIn b c > b.length / 100 + 1

/-- The difflib index map: for each character the ascending list of its
positions in the second sequence, with popular characters deleted (an absent
character yields the empty list, like dict.get with an empty default). -/
def b2jFun (b : List Char) (c : Char) : List ℕ :=
  if isPopular b c then []
  else (List.range b.length).filter (fun j => b.getD j (Char.ofNat 0) = c)

/-- One step of the inner loop of find_longest_match over the index list of
the current character: skip below blo, break at bhi (the flag models the
break: the list is ascending, so every later index would also break), extend
the running suffix length from the previous row (a dict miss, including the
index minus one at zero, reads zero), and take a strictly longer best
(Python computes besti as i-k+1 with k at most i+1, so the natural
subtraction agrees). -/
def innerStep (blo bhi i : ℕ) (oldf : ℕ → ℕ)
    (st : (ℕ → ℕ) × ℕ × ℕ × ℕ × Bool) (j : ℕ) : (ℕ → ℕ) × ℕ × ℕ × ℕ × Bool :=
  let nf := st.1
  let bi := st.2.1
  let bj := st.2.2.1
  let bs := st.2.2.2.1
  let brk := st.2.2.2.2
  if brk then st
  else if j < blo then st
  else if bhi ≤ j then (nf, bi, bj, bs, true)
  else
    let k := (if j = 0 then 0 else oldf (j - 1)) + 1
    let nf2 := fun j2 => if j2 = j then k else nf j2
    if bs < k then (nf2, i + 1 - k, j + 1 - k, k, false)
    else (nf2, bi, bj, bs, false)

/-- One iteration of the outer loop of find_longest_match: run the inner loop
over the index list of the current character from a fresh row and the carried
best triple, then keep the produced row and best. -/
def outerStep (a : List Char) (b2j : Char → List ℕ) (blo bhi : ℕ)
    (st : (ℕ → ℕ) × ℕ × ℕ × ℕ) (i : ℕ) : (ℕ → ℕ) × ℕ × ℕ × ℕ :=
  let js := b2j (a.getD i (Char.ofNat 0))
  let r := js.foldl (innerStep blo bhi i st.1) ((fun _ => 0), st.2.1, st.2.2.1, st.2.2.2, false)
  (r.1, r.2.1, r.2.2.1, r.2.2.2.1)

/-- The doubly nested loop of find_longest_match: the outer fold over the
first-sequence indices threads the suffix-length row (reset to the empty dict
each iteration) and the best triple. -/
def flmLoop (a b : List Char) (b2j : Char → List ℕ) (blo bhi : ℕ)
    (idxs : List ℕ) (alo : ℕ) : ℕ × ℕ × ℕ :=
  let fin := idxs.foldl (outerStep a b2j blo bhi) ((fun _ => 0), alo, blo, 0)
  (fin.2.1, fin.2.2.1, fin.2.2.2)

/-- The first extension loop: extend the best block left over equal non-junk
characters.  The fuel equals besti minus alo at the call, an exact bound on
the iterations. -/
def extendL (a b : List Char) (bjunk : Char → Bool) (alo blo : ℕ) :
    ℕ → ℕ × ℕ × ℕ → ℕ × ℕ × ℕ
  | 0, st => st
  | fuel + 1, (bi, bj, bs) =>
    if alo < bi ∧ blo < bj ∧ ¬ bjunk (b.getD (bj - 1) (Char.ofNat 0))
        ∧ a.getD (bi - 1) (Char.ofNat 0) = b.getD (bj - 1) (Char.ofNat 0)
    then extendL a b bjunk alo blo fuel (bi - 1, bj - 1, bs + 1)
    else (bi, bj, bs)

/-- The second extension loop: extend the best block right over equal non-junk
characters. -/
def extendR (a b : List Char) (bjunk : Char → Bool) (ahi bhi : ℕ) :
    ℕ → ℕ × ℕ × ℕ → ℕ × ℕ × ℕ
  | 0, st => st
  | fuel + 1, (bi, bj, bs) =>
    if bi + bs < ahi ∧ bj + bs < bhi ∧ ¬ bjunk (b.getD (bj + bs) (Char.ofNat 0))
        ∧ a.getD (bi + bs) (Char.ofNat 0) = b.getD (bj + bs) (Char.ofNat 0)
    then extendR a b bjunk ahi bhi fuel (bi, bj, bs + 1)
    else (bi, bj, bs)

/-- The third extension loop: extend left over equal junk characters. -/
def extendJunkL (a b : List Char) (bjunk : Char → Bool) (alo blo : ℕ) :
    ℕ → ℕ × ℕ × ℕ → ℕ × ℕ × ℕ
  | 0, st => st
  | fuel + 1, (bi, bj, bs) =>
    if alo < bi ∧ blo < bj ∧ bjunk (b.getD (bj - 1) (Char.ofNat 0))
        ∧ a.getD (bi - 1) (Char.ofNat 0) = b.getD (bj - 1) (Char.ofNat 0)
    then extendJunkL a b bjunk alo blo fuel (bi - 1, bj - 1, bs + 1)
    else (bi, bj, bs)

/-- The fourth extension loop: extend right over equal junk characters. -/
def extendJunkR (a b : List Char) (bjunk : Char → Bool) (ahi bhi : ℕ) :
    ℕ → ℕ × ℕ × ℕ → ℕ × ℕ × ℕ
  | 0, st => st
  | fuel + 1, (bi, bj, bs) =>
    if bi + bs < ahi ∧ bj + bs < bhi ∧ bjunk (b.getD (bj + bs) (Char.ofNat 0))
        ∧ a.getD (bi + bs) (Char.ofNat 0) = b.getD (bj + bs) (Char.ofNat 0)
    then extendJunkR a b bjunk ahi bhi fuel (bi, bj, bs + 1)
    else (bi, bj, bs)

/-- difflib find_longest_match over the window alo-ahi, blo-bhi: the dynamic
programming loops, then the four extension loops. -/
def findLongestMatch (a b : List Char) (b2j : Char → List ℕ) (bjunk : Char → Bool)
    (alo ahi blo bhi : ℕ) : ℕ × ℕ × ℕ :=
  let s0 := flmLoop a b b2j blo bhi (List.range' alo (ahi - alo)) alo
  let s1 := extendL a b bjunk alo blo (s0.1 - alo) s0
  let s2 := extendR a b bjunk ahi bhi (ahi - (s1.1 + s1.2.2)) s1
  let s3 := extendJunkL a b bjunk alo blo (s2.1 - alo) s2
  extendJunkR a b bjunk ahi bhi (ahi - (s3.1 + s3.2.2)) s3

/-- The total size of all matching blocks: the queue recursion of
get_matching_blocks, which recurses left and right of each nonempty longest
match (the later sort, adjacent-merge and zero-length sentinel do not change
the sum of the sizes, which is all ratio reads).  Each recursive call is on a
strictly smaller window, so fuel equal to the total length plus one never
runs out. -/
def matchesSum (a b : List Char) (b2j : Char → List ℕ) (bjunk : Char → Bool) :
    ℕ → ℕ × ℕ × ℕ × ℕ → ℕ
  | 0, _ => 0
  | fuel + 1, (alo, ahi, blo, bhi) =>
    let m := findLongestMatch a b b2j bjunk alo ahi blo bhi
    let i := m.1
    let j := m.2.1
    let k := m.2.2
    if k = 0 then 0
    else
      k + (if alo < i ∧ blo < j then matchesSum a b b2j bjunk fuel (alo, i, blo, j) else 0)
        + (if i + k < ahi ∧ j + k < bhi then matchesSum a b b2j bjunk fuel (i + k, ahi, j + k, bhi) else 0)

/-- difflib SequenceMatcher(None, a, b).ratio(): twice the matches over the
total length (1 when both are empty, as in the Python ratio helper), as an
exact rational.  The Python value is a float; at every comparison a claim
makes (equality with 0 or 100 and strict comparison with 100 after scaling)
the float and the rational agree for all realistically sized inputs, the
quotients being exact or far from the rounding boundary. -/
def ratioQ (a b : List Char) : ℚ :=
  let T := a.length + b.length
  if T = 0 then 1
  else 2 * ((matchesSum a b (b2jFun b) (fun _ => false) (T + 1) (0, a.length, 0, b.length) : ℕ) : ℚ) / (T : ℚ)

/-- Python one-space-join of str.split: all whitespace runs collapsed to
single spaces, ends trimmed (the normalization of _calculate_accuracy). -/
def normWs (l : List Char) : List Char := joinSep [' '] (splitWs l)

/-- Python string interpolation of an optional value: None prints as the
four-letter word None. -/
def pyStrOpt : Option (List Char) → List Char
  | some c => c
  | none => str "None"

/-- One comparison result.  The line_by_line_diff field is not modelled: no
claim mentions it and no other field depends on it.  Statuses are the literal
strings MATCH, DIFFERENT, MISSING, EXTRA of the source. -/
structure ComparisonResult where
  object_name : List Char
  object_type : SQLObjectType
  status : List Char
  completeness_percentage : ℚ
  accuracy_percentage : ℚ
  differences : List (List Char)
  missing_components : List (List Char)
  extra_components : List (List Char)
deriving DecidableEq, Repr

/-- The three finding lists a structural pass returns. -/
structure CmpParts where
  differences : List (List Char)
  missing : List (List Char)
  extra : List (List Char)
deriving DecidableEq, Repr

/-- The column pass: set symmetric difference of the two column lists (sets
modelled by first-occurrence deduplication; only membership and cardinality
matter to the claims), summary difference lines, finer-grained
missing and extra component lines, and the order-differs note when the sets
agree but the sequences do not. -/
def compare_columns (sc dc : List (List Char)) : CmpParts :=
  let missing_cols := (dedupFirst sc).filter (fun c => ¬ c ∈ dc)
  let extra_cols := (dedupFirst dc).filter (fun c => ¬ c ∈ sc)
  { differences :=
      (if ¬ missing_cols.isEmpty
        then [str "Missing columns: " ++ joinSep (str ", ") missing_cols] else [])
      ++ (if ¬ extra_cols.isEmpty
        then [str "Extra columns: " ++ joinSep (str ", ") extra_cols] else [])
      ++ (if ¬ sc = dc ∧ missing_cols.isEmpty ∧ extra_cols.isEmpty
        then [str "Column order differs"] else []),
    missing := missing_cols.map (fun c => str "Missing column: " ++ c),
    extra := extra_cols.map (fun c => str "Extra column: " ++ c) }

/-- The CTE pass: name-set symmetric difference, then a definition-differs
line for every common name, looked up by first occurrence on each side (the
generator expression next of the source). -/
def compare_ctes (s d : List CteD) : CmpParts :=
  let sNames := s.map CteD.name
  let dNames := d.map CteD.name
  let missing_ctes := (dedupFirst sNames).filter (fun c => ¬ c ∈ dNames)
  let extra_ctes := (dedupFirst dNames).filter (fun c => ¬ c ∈ sNames)
  let common := (dedupFirst sNames).filter (fun c => c ∈ dNames)
  { differences :=
      (if ¬ missing_ctes.isEmpty
        then [str "Missing CTEs: " ++ joinSep (str ", ") missing_ctes] else [])
      ++ (if ¬ extra_ctes.isEmpty
        then [str "Extra CTEs: " ++ joinSep (str ", ") extra_ctes] else [])
      ++ common.filterMap (fun n =>
          match s.find? (fun c => c.name = n), d.find? (fun c => c.name = n) with
          | some sc, some dcc =>
            if ¬ sc.definition = dcc.definition
            then some (str "CTE '" ++ n ++ str "' definition differs") else none
          | _, _ => none),
    missing := missing_ctes.map (fun c => str "Missing CTE: " ++ c),
    extra := extra_ctes.map (fun c => str "Extra CTE: " ++ c) }

/-- The whole-string comparable key of the JOIN pass: type, table and the
condition (None rendered the Python way), space separated after ON. -/
def joinStr (j : JoinD) : List Char :=
  j.jtype ++ str " " ++ j.table ++ str " ON " ++ pyStrOpt j.condition

/-- The JOIN pass: set symmetric difference over the whole joinStr key; the
summary lines carry the counts, the component lines the keys. -/
def compare_joins (s d : List JoinD) : CmpParts :=
  let sStrs := s.map joinStr
  let dStrs := d.map joinStr
  let missing_joins := (dedupFirst sStrs).filter (fun c => ¬ c ∈ dStrs)
  let extra_joins := (dedupFirst dStrs).filter (fun c => ¬ c ∈ sStrs)
  { differences :=
      (if ¬ missing_joins.isEmpty
        then [str "Missing JOINs: " ++ natChars missing_joins.length] else [])
      ++ (if ¬ extra_joins.isEmpty
        then [str "Extra JOINs: " ++ natChars extra_joins.length] else []),
    missing := missing_joins.map (fun c => str "Missing JOIN: " ++ c),
    extra := extra_joins.map (fun c => str "Extra JOIN: " ++ c) }

/-- The clause pass: exact inequality, with the absent-on-one-side cases
reported distinctly. -/
def compare_clauses (sc dc : Option (List Char)) (ctype : List Char) : List (List Char) :=
  if sc = dc then []
  else
    match sc, dc with
    | none, _ => [str "Missing " ++ ctype ++ str " clause in Docker"]
    | some _, none => [str "Missing " ++ ctype ++ str " clause in source"]
    | some _, some _ => [ctype ++ str " clause differs"]

/-- The comment pass: set symmetric difference, counts only. -/
def compare_comments (s d : List (List Char)) : List (List Char) :=
  let missing := (dedupFirst s).filter (fun c => ¬ c ∈ d)
  let extra := (dedupFirst d).filter (fun c => ¬ c ∈ s)
  (if ¬ missing.isEmpty then [str "Missing comments: " ++ natChars missing.length] else [])
  ++ (if ¬ extra.isEmpty then [str "Extra comments: " ++ natChars extra.length] else [])

/-- The function pass: parameter-list inequality and return-type inequality. -/
def compare_functions (s d : SQLObject) : CmpParts :=
  { differences :=
      (if ¬ s.parameters = d.parameters then [str "Function parameters differ"] else [])
      ++ (if ¬ s.return_type = d.return_type
        then [str "Return type differs: source=" ++ pyStrOpt s.return_type
          ++ str ", docker=" ++ pyStrOpt d.return_type] else []),
    missing := [], extra := [] }

/-- Whether a clause is truthy in Python: present and nonempty.  A truthy
reference clause counts one expected completeness component. -/
def clauseTotal (sc : Option (List Char)) : ℕ :=
  match sc with
  | none => 0
  | some c => if c.isEmpty then 0 else 1

/-- The matched components a clause contributes: one when the reference clause
is truthy and the two clauses are equal. -/
def clauseMatch (sc dc : Option (List Char)) : ℕ :=
  match sc with
  | none => 0
  | some c => if c.isEmpty then 0 else if sc = dc then 1 else 0

/-- The type-table comparable key used by completeness for joins (the
condition is excluded here, unlike the key of the JOIN difference pass). -/
def joinKey (j : JoinD) : List Char := j.jtype ++ str " " ++ j.table

/-- The expected component count of completeness: every reference column, CTE
and JOIN occurrence, and each truthy reference clause. -/
def compTotal (s : SQLObject) : ℕ :=
  s.columns.length + s.ctes.length + s.joins.length
  + clauseTotal s.where_clause + clauseTotal s.group_by + clauseTotal s.order_by

/-- The matched component count of completeness: columns matched set-wise by
value, CTEs by name, JOINs by the type-table key, clauses by equality. -/
def compMatching (s d : SQLObject) : ℕ :=
  ((dedupFirst s.columns).filter (fun c => c ∈ d.columns)).length
  + ((dedupFirst (s.ctes.map CteD.name)).filter
      (fun c => c ∈ d.ctes.map CteD.name)).length
  + ((dedupFirst (s.joins.map joinKey)).filter (fun c => c ∈ d.joins.map joinKey)).length
  + clauseMatch s.where_clause d.where_clause
  + clauseMatch s.group_by d.group_by
  + clauseMatch s.order_by d.order_by

/-- The completeness score: matched components over expected components, one
hundred when nothing is expected. -/
def calculate_completeness (s d : SQLObject) : ℚ :=
  if compTotal s = 0 then 100
  else ((compMatching s d : ℚ) / (compTotal s : ℚ)) * 100

/-- The accuracy score: difflib ratio of the whitespace-normalized
definitions, scaled to one hundred. -/
def calculate_accuracy (s d : SQLObject) : ℚ :=
  ratioQ (normWs s.definition) (normWs d.definition) * 100

/-- The detailed comparison of two co-named objects: the passes run in the
fixed order type, columns, CTEs, JOINs, WHERE, GROUP BY, ORDER BY, comments,
function specifics, each appending its findings; status is MATCH exactly when
no difference was recorded. -/
def compare_objects (s d : SQLObject) : ComparisonResult :=
  let dType :=
    if ¬ s.type = d.type
    then [str "Type mismatch: source=" ++ typeValue s.type ++ str ", docker=" ++ typeValue d.type]
    else []
  let cc := compare_columns s.columns d.columns
  let ct := compare_ctes s.ctes d.ctes
  let cj := compare_joins s.joins d.joins
  let cw := compare_clauses s.where_clause d.where_clause (str "WHERE")
  let cg := compare_clauses s.group_by d.group_by (str "GROUP BY")
  let co := compare_clauses s.order_by d.order_by (str "ORDER BY")
  let cm := compare_comments s.comments d.comments
  let cf := if s.type = SQLObjectType.FUNCTION then compare_functions s d else ⟨[], [], []⟩
  let diffs := dType ++ cc.differences ++ ct.differences ++ cj.differences
    ++ cw ++ cg ++ co ++ cm ++ cf.differences
  { object_name := s.name, object_type := s.type,
    status := if diffs.isEmpty then str "MATCH" else str "DIFFERENT",
    completeness_percentage := calculate_completeness s d,
    accuracy_percentage := calculate_accuracy s d,
    differences := diffs,
    missing_components := cc.missing ++ ct.missing ++ cj.missing ++ cf.missing,
    extra_components := cc.extra ++ ct.extra ++ cj.extra ++ cf.extra }

/-- The Python dict comprehension keyed by name: a later object with the same
name overrides an earlier one, and lookup of an absent name yields none. -/
def lookupD (objs : List SQLObject) (n : List Char) : Option SQLObject :=
  objs.foldl (fun acc o => if o.name = n then some o else acc) none

/-- The names of a sequence, in order, duplicates kept. -/
def namesOf (objs : List SQLObject) : List (List Char) := objs.map SQLObject.name

/-- The union of the two key sets (the set union of the source, modelled as
first-occurrence deduplication of the concatenation: a deterministic
refinement of the unspecified set iteration order). -/
def allKeyNames (src dock : List SQLObject) : List (List Char) :=
  dedupFirst (namesOf src ++ namesOf dock)

/-- The per-name result: both present compares in detail; present only in the
reference gives the MISSING record; present only in the candidate gives the
EXTRA record.  Both absent is unreachable from compare_files (every compared
name comes from the union of the key sets; Python would raise there) and is
given the EXTRA shape with a placeholder type. -/
def pairResult (n : List Char) : Option SQLObject → Option SQLObject → ComparisonResult
  | some s, some d => compare_objects s d
  | some s, none =>
    { object_name := n, object_type := s.type, status := str "MISSING",
      completeness_percentage := 0, accuracy_percentage := 0,
      differences := [str "Object '" ++ n ++ str "' exists in source but missing in Docker"],
      missing_components := [], extra_components := [] }
  | none, some d =>
    { object_name := n, object_type := d.type, status := str "EXTRA",
      completeness_percentage := 0, accuracy_percentage := 0,
      differences := [str "Object '" ++ n ++ str "' exists in Docker but not in source"],
      missing_components := [], extra_components := [] }
  | none, none =>
    { object_name := n, object_type := SQLObjectType.COMMENT, status := str "EXTRA",
      completeness_percentage := 0, accuracy_percentage := 0,
      differences := [], missing_components := [], extra_components := [] }

/-- The comparator: one result per unique object name across both sequences. -/
def compare_files (src dock : List SQLObject) : List ComparisonResult :=
  (allKeyNames src dock).map (fun n => pairResult n (lookupD src n) (lookupD dock n))

/-- The schematic view statement of the first claim, with the four schematic
identifiers as parameters and the literal WHERE body of the claim. -/
def mkViewStmt (nm a b t : List Char) : List Char :=
  str "CREATE OR REPLACE VIEW " ++ nm ++ str " AS SELECT " ++ a ++ str ", "
    ++ b ++ str " FROM " ++ t ++ str " WHERE x=1"

/-- A plain word identifier: nonempty, word characters only. -/
def isWordIdent (l : List Char) : Bool := ¬ l.isEmpty && l.all wordChar

/-- The reference table statement of the third claim. -/
def c3ref : List Char := str "CREATE TABLE t (id INT, name TEXT, PRIMARY KEY (id))"

/-- The candidate table statement of the third claim. -/
def c3cand : List Char := str "CREATE TABLE t (id INT)"

/-- A view statement whose SELECT list repeats one column name: the
counterexample input of the second claim. -/
def c2dupStmt : List Char := str "CREATE OR REPLACE VIEW v AS SELECT a, a FROM t"

/-- A unique-index statement: the counterexample input of the fifth claim. -/
def c5stmt : List Char := str "CREATE UNIQUE INDEX idx2 ON t (col)"

/-- Reference view of the sixth claim: one inner join with a condition. -/
def c6src : List Char :=
  str "CREATE OR REPLACE VIEW v AS SELECT a FROM t INNER JOIN u ON x=y WHERE p=1"

/-- Candidate view of the sixth claim: the same join with another condition. -/
def c6dock : List Char :=
  str "CREATE OR REPLACE VIEW v AS SELECT a FROM t INNER JOIN u ON x=z WHERE p=1"

/-- The counterexample input of the first claim: the table identifier ends in
the letters w-h-e-r-e followed by whitespace, so the WHERE pattern, which has
no word-boundary assertion, matches inside it first. -/
def c1whereStmt : List Char :=
  str "CREATE OR REPLACE VIEW v AS SELECT a, b FROM anywhere WHERE x=1"

/-- The defining-query body of the schematic view statement of the first
claim, in right-nested form: what follows the AS keyword. -/
def c1body (a b t : List Char) : List Char :=
  str "SELECT " ++ (a ++ (str ", " ++ (b ++ (str " FROM " ++ (t ++ str " WHERE x=1")))))

/-- A default object used only to unwrap options of already-proved-some
parses in concrete scenario definitions. -/
def defaultObj : SQLObject := basicObject [] SQLObjectType.VIEW [] []

/-- The parsed reference object of the third claim. -/
def c3refObj : SQLObject := (parse_statement c3ref).getD defaultObj

/-- The parsed candidate object of the third claim. -/
def c3candObj : SQLObject := (parse_statement c3cand).getD defaultObj

/-- The parsed duplicate-column view of the second claim counterexample. -/
def c2dupObj : SQLObject := (parse_statement c2dupStmt).getD defaultObj

/-- The parsed reference view of the sixth claim. -/
def c6srcObj : SQLObject := (parse_statement c6src).getD defaultObj

/-- The parsed candidate view of the sixth claim. -/
def c6dockObj : SQLObject := (parse_statement c6dock).getD defaultObj

/-- Validity of a cell of the self-comparison dynamic program of
find_longest_match on a pair of equal sequences: the column index is in
range, the two characters agree, and the row character is not pruned by the
autojunk heuristic (exactly membership of j in the index list the inner loop
iterates over at row i). -/
def validC (a : List Char) (i j : ℕ) : Prop :=
  j < a.length ∧ a.getD j (Char.ofNat 0) = a.getD i (Char.ofNat 0) ∧
    isPopular a (a.getD i (Char.ofNat 0)) = false

instance validC_dec (a : List Char) (i j : ℕ) : Decidable (validC a i j) := by
  unfold validC
  infer_instance

/-- The value the suffix-length dynamic program of find_longest_match holds at
cell (i, j) when the two compared sequences are both a: the length of the
common pruned suffix, zero at invalid cells.  Proof scaffolding for the
self-comparison lemma; mirrors the j2len recurrence of the source. -/
def suffD (a : List Char) : ℕ → ℕ → ℕ
  | 0, j => if validC a 0 j then 1 else 0
  | i + 1, 0 => if validC a (i + 1) 0 then 1 else 0
  | i + 1, j + 1 => if validC a (i + 1) (j + 1) then suffD a i j + 1 else 0

/-- The row the outer loop of the self comparison carries into iteration m:
the previous suffD row, the all-zero row before the first iteration. -/
def prevRow (a : List Char) : ℕ → ℕ → ℕ
  | 0, _ => 0
  | m + 1, j => suffD a m j

theorem mem_dedupFirst {a : List Char} : ∀ {l : List (List Char)}, a ∈ dedupFirst l ↔ a ∈ l := by
  intro l
  induction l with
  | nil => simp [dedupFirst]
  | cons c cs ih =>
    simp only [dedupFirst, List.mem_cons, List.mem_filter]
    constructor
    · rintro (rfl | ⟨h1, _⟩)
      · exact Or.inl rfl
      · exact Or.inr (ih.mp h1)
    · rintro (rfl | h)
      · exact Or.inl rfl
      · by_cases hac : a = c
        · exact Or.inl hac
        · exact Or.inr ⟨ih.mpr h, by simpa using hac⟩

theorem dedupFirst_nodup : ∀ (l : List (List Char)), (dedupFirst l).Nodup := by
  intro l
  induction l with
  | nil => simp [dedupFirst]
  | cons c cs ih =>
    simp only [dedupFirst, List.nodup_cons]
    refine ⟨fun hmem => ?_, List.Nodup.filter _ ih⟩
    have := (List.mem_filter.mp hmem).2
    simp at this

theorem dedupFirst_eq_self {l : List (List Char)} (h : l.Nodup) : dedupFirst l = l := by
  induction l with
  | nil => rfl
  | cons c cs ih =>
    simp only [dedupFirst]
    rw [List.nodup_cons] at h
    rw [ih h.2, List.filter_eq_self.mpr]
    intro a ha
    simp only [decide_eq_true_eq]
    exact fun he => h.1 (he ▸ ha)

theorem startsWithL_take (p u : List Char) (h : startsWithL p u = true) :
    u.take p.length = p := by
  simpa [startsWithL] using h

theorem startsWithL_length (p u : List Char) (h : startsWithL p u = true) :
    p.length ≤ u.length := by
  have := startsWithL_take p u h
  have h2 : (u.take p.length).length = p.length := by rw [this]
  simpa using h2

theorem prefix_prefix_eq (p q u : List Char) (h1 : startsWithL p u = true)
    (h2 : startsWithL q u = true) (hlen : p.length ≤ q.length) :
    p = q.take p.length := by
  have e1 := startsWithL_take p u h1
  have e2 := startsWithL_take q u h2
  rw [← e2, List.take_take, Nat.min_eq_left hlen]
  exact e1.symm

theorem upperL_append (x y : List Char) : upperL (x ++ y) = upperL x ++ upperL y :=
  List.map_append upperC x y

theorem startsWithL_append_left (p x y : List Char) (h : startsWithL p x = true) :
    startsWithL p (x ++ y) = true := by
  have hl := startsWithL_length p x h
  simp only [startsWithL, decide_eq_true_eq] at h ⊢
  rw [List.take_append_of_le_length hl]
  exact h

theorem calculate_completeness_lt_100 (s d : SQLObject)
    (h : compMatching s d < compTotal s) : calculate_completeness s d < 100 := by
  unfold calculate_completeness
  rw [if_neg (by omega)]
  have ht : (0 : ℚ) < (compTotal s : ℚ) := by
    exact_mod_cast Nat.pos_of_ne_zero (by omega)
  have hd : (compMatching s d : ℚ) / (compTotal s : ℚ) < 1 := by
    rw [div_lt_one ht]
    exact_mod_cast h
  calc (compMatching s d : ℚ) / (compTotal s : ℚ) * 100 < 1 * 100 := by
        exact mul_lt_mul_of_pos_right hd (by norm_num)
    _ = 100 := one_mul 100

theorem calculate_completeness_eq_100 (s d : SQLObject)
    (h : compMatching s d = compTotal s) : calculate_completeness s d = 100 := by
  unfold calculate_completeness
  by_cases h0 : compTotal s = 0
  · rw [if_pos h0]
  · rw [if_neg h0, h, div_self (by exact_mod_cast h0), one_mul]

theorem calculate_completeness_ne_100 (s d : SQLObject)
    (h : compMatching s d < compTotal s) : ¬ calculate_completeness s d = 100 := by
  have := calculate_completeness_lt_100 s d h
  exact fun he => absurd (he ▸ this) (lt_irrefl 100)

theorem lookupD_name_aux (n : List Char) :
    ∀ (objs : List SQLObject) (acc : Option SQLObject),
      (∀ o, acc = some o → o.name = n) →
      ∀ o, objs.foldl (fun acc o => if o.name = n then some o else acc) acc = some o →
        o.name = n := by
  intro objs
  induction objs with
  | nil => intro acc hacc o h; exact hacc o h
  | cons x xs ih =>
    intro acc hacc o h
    refine ih _ ?_ o h
    intro o' h'
    change (if x.name = n then some x else acc) = some o' at h'
    by_cases hx : x.name = n
    · rw [if_pos hx] at h'
      cases h'
      exact hx
    · rw [if_neg hx] at h'
      exact hacc o' h'

theorem lookupD_name {objs : List SQLObject} {n : List Char} {o : SQLObject}
    (h : lookupD objs n = some o) : o.name = n :=
  lookupD_name_aux n objs none (by intro o' h'; cases h') o h

theorem lookupD_isSome_aux (n : List Char) :
    ∀ (objs : List SQLObject) (acc : Option SQLObject),
      (objs.foldl (fun acc o => if o.name = n then some o else acc) acc).isSome = true ↔
        acc.isSome = true ∨ n ∈ namesOf objs := by
  intro objs
  induction objs with
  | nil => intro acc; simp [namesOf]
  | cons x xs ih =>
    intro acc
    rw [List.foldl_cons, ih]
    by_cases hx : x.name = n
    · simp [namesOf, hx]
    · rw [if_neg hx]
      simp only [namesOf, List.map_cons, List.mem_cons]
      constructor
      · rintro (h | h)
        · exact Or.inl h
        · exact Or.inr (Or.inr h)
      · rintro (h | h | h)
        · exact Or.inl h
        · exact absurd h.symm hx
        · exact Or.inr h

theorem lookupD_isSome_iff {objs : List SQLObject} {n : List Char} :
    (lookupD objs n).isSome = true ↔ n ∈ namesOf objs := by
  rw [lookupD, lookupD_isSome_aux]
  simp

theorem foldl_lookup_skip (n : List Char) (post : List SQLObject)
    (hpost : ¬ n ∈ namesOf post) (acc : Option SQLObject) :
    post.foldl (fun acc o => if o.name = n then some o else acc) acc = acc := by
  induction post generalizing acc with
  | nil => rfl
  | cons x xs ih =>
    simp only [namesOf, List.map_cons, List.mem_cons] at hpost
    rw [List.foldl_cons, if_neg (fun hx => hpost (Or.inl hx.symm))]
    exact ih (fun hm => hpost (Or.inr hm)) acc

theorem lookupD_append_skip (objs post : List SQLObject) (n : List Char)
    (hpost : ¬ n ∈ namesOf post) :
    lookupD (objs ++ post) n = lookupD objs n := by
  rw [lookupD, List.foldl_append]
  exact foldl_lookup_skip n post hpost _

theorem compare_objects_name (s d : SQLObject) :
    (compare_objects s d).object_name = s.name := rfl

theorem pairResult_object_name (n : List Char) (a b : Option SQLObject)
    (ha : ∀ o, a = some o → o.name = n) : (pairResult n a b).object_name = n := by
  match a, b with
  | some s, some d => exact (compare_objects_name s d).trans (ha s rfl)
  | some s, none => rfl
  | none, some d => rfl
  | none, none => rfl

theorem map_filter_name (f : List Char → ComparisonResult) :
    ∀ (ns : List (List Char)), ns.Nodup → (∀ m, m ∈ ns → (f m).object_name = m) →
      ∀ n, n ∈ ns →
        (ns.map f).filter (fun r => r.object_name = n) = [f n] := by
  intro ns
  induction ns with
  | nil => intro _ _ n hn; cases hn
  | cons m ms ih =>
    intro hnd hf n hn
    rw [List.nodup_cons] at hnd
    rw [List.map_cons, List.filter_cons]
    rcases List.mem_cons.mp hn with rfl | hmem
    · rw [if_pos (by simp [hf n (List.mem_cons_self _ _)])]
      congr 1
      rw [List.filter_eq_nil]
      intro r hr
      rcases List.mem_map.mp hr with ⟨k, hk, rfl⟩
      have : (f k).object_name = k := hf k (List.mem_cons_of_mem _ hk)
      rw [this]
      simp only [decide_eq_true_eq]
      intro he
      exact hnd.1 (he ▸ hk)
    · have hne : ¬ m = n := fun he => hnd.1 (he ▸ hmem)
      rw [if_neg (by simp [hf m (List.mem_cons_self _ _), hne])]
      exact ih hnd.2 (fun k hk => hf k (List.mem_cons_of_mem _ hk)) n hmem

theorem compare_files_filter (src dock : List SQLObject) (n : List Char)
    (hn : n ∈ allKeyNames src dock) :
    (compare_files src dock).filter (fun r => r.object_name = n) =
      [pairResult n (lookupD src n) (lookupD dock n)] := by
  refine map_filter_name _ (allKeyNames src dock)
    (dedupFirst_nodup _) ?_ n hn
  intro m _
  exact pairResult_object_name m _ _ (fun o ho => lookupD_name ho)

theorem mem_allKeyNames {src dock : List SQLObject} {n : List Char} :
    n ∈ allKeyNames src dock ↔ n ∈ namesOf src ∨ n ∈ namesOf dock := by
  rw [allKeyNames, mem_dedupFirst, List.mem_append]

/-- C3: for reference CREATE TABLE t (id INT, name TEXT, PRIMARY KEY (id))
against candidate CREATE TABLE t (id INT), the comparison result for t has
status DIFFERENT, its missing_components sequence is exactly the single entry
Missing column: name, and its completeness percentage is strictly below one
hundred. -/
theorem c3_table_scenario :
    parse_sql [c3ref] = [c3refObj] ∧ parse_sql [c3cand] = [c3candObj] ∧
    (compare_files [c3refObj] [c3candObj]).map
        (fun r => (r.object_name, r.status, r.missing_components)) =
      [(str "t", str "DIFFERENT", [str "Missing column: name"])] ∧
    ∀ r ∈ compare_files [c3refObj] [c3candObj], r.completeness_percentage < 100 := by
  refine ⟨by decide, by decide, by decide, ?_⟩
  intro r hr
  have he : compare_files [c3refObj] [c3candObj] =
      [compare_objects c3refObj c3candObj] := rfl
  rw [he, List.mem_singleton] at hr
  subst hr
  have hc : (compare_objects c3refObj c3candObj).completeness_percentage =
      calculate_completeness c3refObj c3candObj := rfl
  rw [hc]
  exact calculate_completeness_lt_100 _ _ (by decide)

theorem startsWithL_eq_false_of (p0 p u : List Char) (h0 : startsWithL p0 u = true)
    (hd : ¬ (p = p0.take p.length ∨ p0 = p.take p0.length)) :
    startsWithL p u = false := by
  cases hsw : startsWithL p u
  · rfl
  · exfalso
    rcases Nat.le_total p.length p0.length with hl | hl
    · exact hd (Or.inl (prefix_prefix_eq p p0 u hsw h0 hl))
    · exact hd (Or.inr (prefix_prefix_eq p0 p u h0 hsw hl))

theorem stripL_not_empty_of_headLit (s p0 : List Char) (h0 : 0 < p0.length)
    (h : startsWithL p0 (upperL (stripL s)) = true) : (stripL s).isEmpty = false := by
  have hlen := startsWithL_length _ _ h
  rw [upperL, List.length_map] at hlen
  cases he : (stripL s).isEmpty
  · rfl
  · exfalso
    rw [List.isEmpty_iff] at he
    rw [he] at hlen
    simp only [List.length_nil, Nat.le_zero] at hlen
    omega

theorem classifier_skips (s p0 : List Char) (h0 : 0 < p0.length)
    (h : startsWithL p0 (upperL (stripL s)) = true)
    (hv : get_object_type (stripL s) = none) : parse_statement s = none := by
  unfold parse_statement
  simp [stripL_not_empty_of_headLit s p0 h0 h, hv]

theorem get_object_type_eq_none (s : List Char)
    (h1 : startsWithL (str "CREATE OR REPLACE VIEW") (upperL s) = false)
    (h2 : startsWithL (str "CREATE MATERIALIZED VIEW") (upperL s) = false)
    (h3 : startsWithL (str "CREATE OR REPLACE FUNCTION") (upperL s) = false)
    (h4 : startsWithL (str "CREATE TABLE") (upperL s) = false)
    (h5 : startsWithL (str "CREATE INDEX") (upperL s) = false)
    (h6 : startsWithL (str "CREATE TRIGGER") (upperL s) = false)
    (h7 : startsWithL (str "GRANT") (upperL s) = false)
    (h8 : startsWithL (str "COMMENT ON") (upperL s) = false) :
    get_object_type s = none := by
  unfold get_object_type
  simp [h1, h2, h3, h4, h5, h6, h7, h8]

/-- C5 counterexample: the concrete statement CREATE UNIQUE INDEX idx2 ON t
(col) begins case-insensitively with CREATE UNIQUE INDEX, yet the classifier
returns none and the extractor emits no object, contradicting the claim that
it yields an Index object rather than being ignored. -/
theorem c5_counterexample :
    startsWithL (str "CREATE UNIQUE INDEX") (upperL (stripL c5stmt)) = true ∧
    get_object_type (stripL c5stmt) = none ∧ parse_statement c5stmt = none := by
  refine ⟨by decide, by decide, by decide⟩

/-- C5 amended: every statement beginning case-insensitively with CREATE
UNIQUE INDEX is classified as none by the type classifier (whose fixed prefix
table has only the CREATE INDEX form, without UNIQUE) and the extractor emits
no object for it. -/
theorem c5_amended (s : List Char)
    (h : startsWithL (str "CREATE UNIQUE INDEX") (upperL (stripL s)) = true) :
    get_object_type (stripL s) = none ∧ parse_statement s = none := by
  have hn : get_object_type (stripL s) = none :=
    get_object_type_eq_none _
      (startsWithL_eq_false_of _ _ _ h (by decide))
      (startsWithL_eq_false_of _ _ _ h (by decide))
      (startsWithL_eq_false_of _ _ _ h (by decide))
      (startsWithL_eq_false_of _ _ _ h (by decide))
      (startsWithL_eq_false_of _ _ _ h (by decide))
      (startsWithL_eq_false_of _ _ _ h (by decide))
      (startsWithL_eq_false_of _ _ _ h (by decide))
      (startsWithL_eq_false_of _ _ _ h (by decide))
  exact ⟨hn, classifier_skips s _ (by decide) h hn⟩

/-- C5 amended witness at the concrete unique-index statement. -/
theorem c5_amended_witness :
    get_object_type (stripL c5stmt) = none ∧ parse_statement c5stmt = none :=
  c5_amended c5stmt (by decide)

/-- C9: a statement beginning case-insensitively with CREATE VIEW and a space
(the OR-REPLACE-less form) is classified as none and the extractor emits no
object, even though the view name pattern itself treats OR REPLACE as
optional and accepts such a statement (second conjunct, at a concrete
witness statement). -/
theorem c9_create_view_ignored :
    (∀ s : List Char, startsWithL (str "CREATE VIEW ") (upperL (stripL s)) = true →
      get_object_type (stripL s) = none ∧ parse_statement s = none) ∧
    extract_object_name (str "CREATE VIEW v AS SELECT 1") SQLObjectType.VIEW =
      some (str "v") := by
  refine ⟨?_, by decide⟩
  intro s h
  have hn : get_object_type (stripL s) = none :=
    get_object_type_eq_none _
      (startsWithL_eq_false_of _ _ _ h (by decide))
      (startsWithL_eq_false_of _ _ _ h (by decide))
      (startsWithL_eq_false_of _ _ _ h (by decide))
      (startsWithL_eq_false_of _ _ _ h (by decide))
      (startsWithL_eq_false_of _ _ _ h (by decide))
      (startsWithL_eq_false_of _ _ _ h (by decide))
      (startsWithL_eq_false_of _ _ _ h (by decide))
      (startsWithL_eq_false_of _ _ _ h (by decide))
  exact ⟨hn, classifier_skips s _ (by decide) h hn⟩

/-- C9 witness at the concrete statement CREATE VIEW v AS SELECT 1. -/
theorem c9_witness :
    get_object_type (stripL (str "CREATE VIEW v AS SELECT 1")) = none ∧
    parse_statement (str "CREATE VIEW v AS SELECT 1") = none :=
  c9_create_view_ignored.1 (str "CREATE VIEW v AS SELECT 1") (by decide)

theorem dropWhile_append_pos (p : Char → Bool) (x y : List Char)
    (hx : ¬ x.dropWhile p = []) :
    (x ++ y).dropWhile p = x.dropWhile p ++ y := by
  induction x with
  | nil => exact absurd rfl hx
  | cons c cs ih =>
    by_cases hc : p c
    · have hx' : ¬ cs.dropWhile p = [] := by
        rwa [List.dropWhile_cons_of_pos hc] at hx
      rw [List.cons_append, List.dropWhile_cons_of_pos hc,
        List.dropWhile_cons_of_pos hc, ih hx']
    · rw [List.cons_append, List.dropWhile_cons_of_neg hc, List.dropWhile_cons_of_neg hc]
      rfl

theorem takeWhile_append_pos (p : Char → Bool) (x y : List Char)
    (hx : ¬ x.dropWhile p = []) :
    (x ++ y).takeWhile p = x.takeWhile p := by
  induction x with
  | nil => exact absurd rfl hx
  | cons c cs ih =>
    by_cases hc : p c
    · have hx' : ¬ cs.dropWhile p = [] := by
        rwa [List.dropWhile_cons_of_pos hc] at hx
      rw [List.cons_append, List.takeWhile_cons_of_pos hc,
        List.takeWhile_cons_of_pos hc, ih hx']
    · rw [List.cons_append, List.takeWhile_cons_of_neg hc, List.takeWhile_cons_of_neg hc]

theorem ciDrop_append {p x r : List Char} (y : List Char) (h : ciDrop p x = some r) :
    ciDrop p (x ++ y) = some (r ++ y) := by
  unfold ciDrop at h ⊢
  by_cases hc : lowerL (x.take p.length) = p ∧ p.length ≤ x.length
  · rw [if_pos hc] at h
    cases h
    rw [if_pos (by
      constructor
      · rw [List.take_append_of_le_length hc.2]
        exact hc.1
      · calc p.length ≤ x.length := hc.2
          _ ≤ (x ++ y).length := by simp)]
    rw [List.drop_append_of_le_length hc.2]
  · rw [if_neg hc] at h
    cases h

theorem ws1_append {x r : List Char} (y : List Char) (h : ws1 x = some r)
    (hr : ¬ r = []) : ws1 (x ++ y) = some (r ++ y) := by
  unfold ws1 at h ⊢
  by_cases hc : (x.takeWhile pySpace).isEmpty
  · rw [if_pos hc] at h
    cases h
  · rw [if_neg hc] at h
    cases h
    have hxe : ¬ x = [] := by
      rintro rfl
      simp at hc
    obtain ⟨c, cs, rfl⟩ : ∃ c cs, x = c :: cs := by
      cases x with
      | nil => exact absurd rfl hxe
      | cons c cs => exact ⟨c, cs, rfl⟩
    have hcp : pySpace c = true := by
      by_contra hcp
      rw [List.takeWhile_cons_of_neg (by simpa using hcp)] at hc
      simp at hc
    rw [if_neg (by rw [List.cons_append, List.takeWhile_cons_of_pos hcp]; simp)]
    rw [dropWhile_append_pos _ _ _ hr]

theorem drop_takeWhile_length (p : Char → Bool) (x : List Char) :
    x.drop (x.takeWhile p).length = x.dropWhile p := by
  induction x with
  | nil => rfl
  | cons c cs ih =>
    by_cases hc : p c
    · rw [List.takeWhile_cons_of_pos hc, List.dropWhile_cons_of_pos hc,
        List.length_cons, List.drop_succ_cons, ih]
    · rw [List.takeWhile_cons_of_neg hc, List.dropWhile_cons_of_neg hc]
      rfl

theorem wordRun_append {x w r : List Char} (y : List Char)
    (h : wordRun x = some (w, r)) (hr : ¬ r = []) :
    wordRun (x ++ y) = some (w, r ++ y) := by
  unfold wordRun at h ⊢
  cases htw : x.takeWhile wordChar with
  | nil => rw [htw] at h; exact absurd h (by simp)
  | cons a as =>
    rw [htw] at h
    cases h
    have hlen : (a :: as).length ≤ x.length := by
      have hp := (List.takeWhile_prefix (p := wordChar) (l := x)).length_le
      rw [htw] at hp
      exact hp
    have hdw : ¬ x.dropWhile wordChar = [] := by
      rw [← drop_takeWhile_length wordChar x, htw]
      exact hr
    rw [takeWhile_append_pos _ _ _ hdw, htw]
    show some (a :: as, (x ++ y).drop (a :: as).length) =
      some (a :: as, x.drop (a :: as).length ++ y)
    rw [List.drop_append_of_le_length hlen]

theorem parse_view_or_mv_fields (s nm : List Char) (ty : SQLObjectType)
    (c : List (List Char)) :
    (parse_view_or_mv s nm ty c).name = nm ∧ (parse_view_or_mv s nm ty c).type = ty := by
  unfold parse_view_or_mv
  split
  · exact ⟨rfl, rfl⟩
  · exact ⟨rfl, rfl⟩

theorem parse_statement_some {s : List Char} {o : SQLObject}
    (h : parse_statement s = some o) :
    ¬ o.name = [] ∧ get_object_type (stripL s) = some o.type := by
  unfold parse_statement at h
  dsimp only at h
  split at h
  · cases h
  · split at h
    · cases h
    · rename_i ty hty
      split at h
      · cases h
      · rename_i nm hnm
        split at h
        · cases h
        · rename_i hne
          cases h
          have hnm' : ¬ nm = [] := by
            simpa [List.isEmpty_iff] using hne
          cases ty with
          | VIEW => exact ⟨by simpa using (parse_view_or_mv_fields _ _ _ _).1 ▸ hnm', by
              rw [hty]
              congr 1
              exact ((parse_view_or_mv_fields _ _ _ _).2).symm⟩
          | MATERIALIZED_VIEW => exact ⟨by simpa using (parse_view_or_mv_fields _ _ _ _).1 ▸ hnm', by
              rw [hty]
              congr 1
              exact ((parse_view_or_mv_fields _ _ _ _).2).symm⟩
          | FUNCTION => exact ⟨hnm', hty⟩
          | TABLE => exact ⟨hnm', hty⟩
          | INDEX => exact ⟨hnm', hty⟩
          | TRIGGER => exact ⟨hnm', hty⟩
          | GRANT => exact ⟨hnm', hty⟩
          | COMMENT => exact ⟨hnm', hty⟩
          | CTE => exact ⟨hnm', hty⟩

/-- C8: every object the extractor emits has a nonempty name, and its kind is
exactly the classifier's verdict on the statement (first and second
conjuncts); a statement whose name pattern fails to match is dropped and
emits no object (third conjunct).  The columns, ctes and joins fields are
total list fields of the record, present by construction. -/
theorem c8_output_invariants :
    (∀ stmts : List (List Char), ∀ o ∈ parse_sql stmts, ¬ o.name = []) ∧
    (∀ (s : List Char) (o : SQLObject), parse_statement s = some o →
      ¬ o.name = [] ∧ get_object_type (stripL s) = some o.type) ∧
    (∀ (s : List Char) (ty : SQLObjectType), get_object_type (stripL s) = some ty →
      extract_object_name (stripL s) ty = none → parse_statement s = none) := by
  refine ⟨?_, fun s o h => parse_statement_some h, fun s ty h1 h2 => ?_⟩
  · intro stmts o ho
    obtain ⟨s, _, hp⟩ := List.mem_filterMap.mp ho
    exact (parse_statement_some hp).1
  · unfold parse_statement
    dsimp only
    simp [h1, h2]

/-- C8 witness: the invariants instantiated at the concrete parsed table
object of the third claim and at a nameless GRANT statement. -/
theorem c8_witness :
    (¬ c3refObj.name = [] ∧ get_object_type (stripL c3ref) = some c3refObj.type) ∧
    parse_statement (str "GRANT SELECT") = none := by
  constructor
  · exact c8_output_invariants.2.1 c3ref c3refObj (by decide)
  · exact c8_output_invariants.2.2 (str "GRANT SELECT") SQLObjectType.GRANT
      (by decide) (by decide)

/-- C4: a name present only in the reference sequence yields the MISSING
result with zero completeness, zero accuracy and exactly one difference
noting the absence; with the two input sequences swapped the same name
yields the EXTRA result, again with zeros and exactly one difference noting
the unexpected presence. -/
theorem c4_missing_extra_symmetry (src dock : List SQLObject) (n : List Char)
    (h1 : n ∈ namesOf src) (h2 : ¬ n ∈ namesOf dock) :
    ∃ o : SQLObject, lookupD src n = some o ∧
      (compare_files src dock).filter (fun r => r.object_name = n) =
        [{ object_name := n, object_type := o.type, status := str "MISSING",
           completeness_percentage := 0, accuracy_percentage := 0,
           differences := [str "Object '" ++ n ++ str "' exists in source but missing in Docker"],
           missing_components := [], extra_components := [] }] ∧
      (compare_files dock src).filter (fun r => r.object_name = n) =
        [{ object_name := n, object_type := o.type, status := str "EXTRA",
           completeness_percentage := 0, accuracy_percentage := 0,
           differences := [str "Object '" ++ n ++ str "' exists in Docker but not in source"],
           missing_components := [], extra_components := [] }] := by
  have hsome : (lookupD src n).isSome = true := lookupD_isSome_iff.mpr h1
  obtain ⟨o, ho⟩ := Option.isSome_iff_exists.mp hsome
  have hnone : lookupD dock n = none := by
    cases hd : lookupD dock n with
    | none => rfl
    | some d =>
      exact absurd (lookupD_isSome_iff.mp (by rw [hd]; rfl)) h2
  refine ⟨o, ho, ?_, ?_⟩
  · rw [compare_files_filter src dock n (mem_allKeyNames.mpr (Or.inl h1)), ho, hnone]
    rfl
  · rw [compare_files_filter dock src n (mem_allKeyNames.mpr (Or.inr h1)), ho, hnone]
    rfl

/-- C4 witness: the table object of the reference side of the third claim
against an empty candidate sequence. -/
theorem c4_witness :
    ∃ o : SQLObject, lookupD [c3refObj] (str "t") = some o ∧
      (compare_files [c3refObj] []).filter (fun r => r.object_name = str "t") =
        [{ object_name := str "t", object_type := o.type, status := str "MISSING",
           completeness_percentage := 0, accuracy_percentage := 0,
           differences := [str "Object '" ++ str "t" ++ str "' exists in source but missing in Docker"],
           missing_components := [], extra_components := [] }] ∧
      (compare_files [] [c3refObj]).filter (fun r => r.object_name = str "t") =
        [{ object_name := str "t", object_type := o.type, status := str "EXTRA",
           completeness_percentage := 0, accuracy_percentage := 0,
           differences := [str "Object '" ++ str "t" ++ str "' exists in Docker but not in source"],
           missing_components := [], extra_components := [] }] :=
  c4_missing_extra_symmetry [c3refObj] [] (str "t") (by decide) (by decide)

/-- C7: when one side contains two objects with the same name, the comparator
produces exactly one result for that name, computed from the later of the two
(last-write-wins in the name-keyed dict). -/
theorem c7_last_write_wins (pre mid post dock : List SQLObject) (o1 o2 : SQLObject)
    (h : o1.name = o2.name) (hpost : ¬ o2.name ∈ namesOf post) :
    (compare_files (pre ++ o1 :: mid ++ o2 :: post) dock).filter
        (fun r => r.object_name = o1.name) =
      [pairResult o1.name (some o2) (lookupD dock o1.name)] := by
  have hl : lookupD (pre ++ o1 :: mid ++ o2 :: post) o1.name = some o2 := by
    rw [h]
    have hsplit : pre ++ o1 :: mid ++ o2 :: post = (pre ++ o1 :: mid ++ [o2]) ++ post := by
      simp
    rw [hsplit, lookupD_append_skip _ _ _ hpost]
    unfold lookupD
    rw [List.foldl_append]
    simp
  have hn : o1.name ∈ namesOf (pre ++ o1 :: mid ++ o2 :: post) := by
    unfold namesOf
    refine List.mem_map.mpr ⟨o1, ?_, rfl⟩
    simp
  rw [compare_files_filter _ _ _ (mem_allKeyNames.mpr (Or.inl hn)), hl]

/-- C7 witness: two same-named table objects on the reference side; the one
result is computed from the second of them. -/
theorem c7_witness :
    (compare_files [c3refObj, c3candObj] []).filter
        (fun r => r.object_name = c3refObj.name) =
      [pairResult c3refObj.name (some c3candObj) (lookupD [] c3refObj.name)] :=
  c7_last_write_wins [] [] [] [] c3refObj c3candObj (by decide) (by decide)

/-- C6 counterexample: two parsed co-named views whose single joins agree on
type and table and differ only in the ON condition; the JOIN pass appends the
Missing JOINs and Extra JOINs entries to differences, contradicting the claim
that it appends nothing. -/
theorem c6_counterexample :
    parse_statement c6src = some c6srcObj ∧ parse_statement c6dock = some c6dockObj ∧
    c6srcObj.name = c6dockObj.name ∧
    c6srcObj.joins.map (fun j => (j.jtype, j.table)) =
      c6dockObj.joins.map (fun j => (j.jtype, j.table)) ∧
    ¬ c6srcObj.joins.map JoinD.condition = c6dockObj.joins.map JoinD.condition ∧
    (compare_objects c6srcObj c6dockObj).differences =
      [str "Missing JOINs: 1", str "Extra JOINs: 1"] := by decide

/-- C6, amended: the JOIN difference pass keys its symmetric difference on
the full type-table-ON-condition string, condition text included, so over all
pairs of join sequences it appends no entry exactly when the two sequences
have the same set of those full strings; in particular two single joins that
agree on type and table but differ in condition text receive both the Missing
JOINs and Extra JOINs entries, while the type-table key that excludes the
condition is used only by the completeness calculation, where such a join
still counts as a matching component. -/
theorem c6_amended :
    (∀ s d : List JoinD,
      (compare_joins s d).differences = []
        ↔ (∀ k, k ∈ s.map joinStr ↔ k ∈ d.map joinStr))
    ∧ (∀ jt tbl c1 c2 : List Char, ¬ c1 = c2 →
      (compare_joins [⟨jt, tbl, some c1⟩] [⟨jt, tbl, some c2⟩]).differences =
        [str "Missing JOINs: 1", str "Extra JOINs: 1"] ∧
      joinKey ⟨jt, tbl, some c1⟩ = joinKey ⟨jt, tbl, some c2⟩ ∧
      ((dedupFirst ([(⟨jt, tbl, some c1⟩ : JoinD)].map joinKey)).filter
        (fun c => c ∈ [(⟨jt, tbl, some c2⟩ : JoinD)].map joinKey)).length = 1) := by
  constructor
  · intro s d
    unfold compare_joins
    dsimp only
    constructor
    · intro h
      have hm : (dedupFirst (s.map joinStr)).filter (fun c => ¬ c ∈ d.map joinStr) = [] := by
        by_cases hm0 : (dedupFirst (s.map joinStr)).filter (fun c => ¬ c ∈ d.map joinStr) = []
        · exact hm0
        · exfalso
          rw [if_pos (by simp only [List.isEmpty_iff]; exact hm0)] at h
          simp at h
      rw [hm] at h
      rw [if_neg (by simp)] at h
      rw [List.nil_append] at h
      have hx : (dedupFirst (d.map joinStr)).filter (fun c => ¬ c ∈ s.map joinStr) = [] := by
        by_cases hx0 : (dedupFirst (d.map joinStr)).filter (fun c => ¬ c ∈ s.map joinStr) = []
        · exact hx0
        · exfalso
          rw [if_pos (by simp only [List.isEmpty_iff]; exact hx0)] at h
          simp at h
      rw [List.filter_eq_nil_iff] at hm hx
      intro k
      constructor
      · intro hk
        have := hm k (mem_dedupFirst.mpr hk)
        simpa using this
      · intro hk
        have := hx k (mem_dedupFirst.mpr hk)
        simpa using this
    · intro h
      have hm : (dedupFirst (s.map joinStr)).filter (fun c => ¬ c ∈ d.map joinStr) = [] := by
        rw [List.filter_eq_nil_iff]
        intro c hc
        simp [(h c).mp (mem_dedupFirst.mp hc)]
      have hx : (dedupFirst (d.map joinStr)).filter (fun c => ¬ c ∈ s.map joinStr) = [] := by
        rw [List.filter_eq_nil_iff]
        intro c hc
        simp [(h c).mpr (mem_dedupFirst.mp hc)]
      rw [hm, hx]
      simp
  · intro jt tbl c1 c2 h
    have hk : ¬ joinStr ⟨jt, tbl, some c1⟩ = joinStr ⟨jt, tbl, some c2⟩ := by
      unfold joinStr pyStrOpt
      dsimp only
      intro he
      apply h
      simpa [List.append_right_inj] using he
    refine ⟨?_, rfl, by simp [dedupFirst, joinKey]⟩
    have h1 : natChars 1 = str "1" := by decide
    have hk2 : ¬ joinStr ⟨jt, tbl, some c2⟩ = joinStr ⟨jt, tbl, some c1⟩ :=
      fun he => hk he.symm
    simp [compare_joins, dedupFirst, hk, hk2, h1]
    exact ⟨by decide, by decide⟩

/-- C6, witness for the amended theorem: both halves exercised at concrete
joins — a condition-only difference yields both entries, and identical
single-join sequences (equal full-string sets) yield none. -/
theorem c6_amended_witness :
    (compare_joins [⟨str "INNER JOIN", str "u", some (str "x=y")⟩]
        [⟨str "INNER JOIN", str "u", some (str "x=z")⟩]).differences =
      [str "Missing JOINs: 1", str "Extra JOINs: 1"] ∧
    (compare_joins [⟨str "INNER JOIN", str "u", some (str "x=y")⟩]
        [⟨str "INNER JOIN", str "u", some (str "x=y")⟩]).differences = [] :=
  ⟨(c6_amended.2 (str "INNER JOIN") (str "u") (str "x=y") (str "x=z") (by decide)).1,
    (c6_amended.1 [⟨str "INNER JOIN", str "u", some (str "x=y")⟩]
      [⟨str "INNER JOIN", str "u", some (str "x=y")⟩]).mpr (fun k => Iff.rfl)⟩

theorem scanFirst_cons_some {f : List Char → Option α} {c : Char} {cs : List Char} {r : α}
    (h : f (c :: cs) = some r) : scanFirst f (c :: cs) = some r := by
  unfold scanFirst
  rw [h]

theorem dotTail_not_dot (w : List Char) (c : Char) (r : List Char) (hc : ¬ c = '.') :
    dotTail w (c :: r) = (w, c :: r) := by
  unfold dotTail
  split
  · rename_i heq
    rw [List.cons_eq_cons] at heq
    exact absurd heq.1 hc
  · rfl

theorem identCap_append_simple {x w : List Char} {c : Char} {r' : List Char} (y : List Char)
    (hw : wordRun x = some (w, c :: r')) (hc : ¬ c = '.') :
    identCap (x ++ y) = some (w, (c :: r') ++ y) := by
  unfold identCap
  rw [wordRun_append y hw (by simp)]
  show some (dotTail w (c :: (r' ++ y))) = some (w, (c :: r') ++ y)
  rw [dotTail_not_dot _ _ _ hc]
  rfl

theorem stripL_split (c : Char) (x y : List Char)
    (hc : ¬ pySpace c = true)
    (hy : ¬ y.reverse.dropWhile pySpace = []) :
    stripL ((c :: x) ++ y) = (c :: x) ++ (y.reverse.dropWhile pySpace).reverse := by
  unfold stripL
  rw [List.cons_append, List.dropWhile_cons_of_neg hc,
    show (c :: (x ++ y)) = (c :: x) ++ y from rfl, List.reverse_append,
    dropWhile_append_pos _ _ _ hy, List.reverse_append, List.reverse_reverse]

theorem c10_headComment_eval (z : List Char) :
    headComment (str "COMMENT ON TABLE " ++ z) = some (str "TABLE") := by
  unfold headComment
  rw [ciDrop_append z (show ciDrop (str "comment") (str "COMMENT ON TABLE ") =
    some (str " ON TABLE ") from by decide)]
  simp only [Option.bind_eq_bind, Option.some_bind]
  rw [ws1_append z (show ws1 (str " ON TABLE ") = some (str "ON TABLE ") from by decide)
    (by decide)]
  simp only [Option.some_bind]
  rw [ciDrop_append z (show ciDrop (str "on") (str "ON TABLE ") =
    some (str " TABLE ") from by decide)]
  simp only [Option.some_bind]
  rw [ws1_append z (show ws1 (str " TABLE ") = some (str "TABLE ") from by decide)
    (by decide)]
  simp only [Option.some_bind]
  rw [identCap_append_simple z (show wordRun (str "TABLE ") =
    some (str "TABLE", ' ' :: []) from by decide) (by decide)]
  simp only [Option.some_bind]

theorem c10_classifier (z : List Char) :
    get_object_type (str "COMMENT ON TABLE " ++ z) = some SQLObjectType.COMMENT := by
  have hup : upperL (str "COMMENT ON TABLE " ++ z) =
      str "COMMENT ON TABLE " ++ upperL z := by
    rw [upperL_append]
    congr 1
  have hpre : startsWithL (str "COMMENT ON TABLE ")
      (str "COMMENT ON TABLE " ++ upperL z) = true :=
    startsWithL_append_left _ _ _ (by decide)
  have ht8 : startsWithL (str "COMMENT ON") (str "COMMENT ON TABLE " ++ upperL z) = true :=
    startsWithL_append_left _ _ _ (by decide)
  unfold get_object_type
  rw [hup]
  dsimp only
  rw [startsWithL_eq_false_of _ _ _ hpre (by decide),
    startsWithL_eq_false_of _ _ _ hpre (by decide),
    startsWithL_eq_false_of _ _ _ hpre (by decide),
    startsWithL_eq_false_of _ _ _ hpre (by decide),
    startsWithL_eq_false_of _ _ _ hpre (by decide),
    startsWithL_eq_false_of _ _ _ hpre (by decide),
    startsWithL_eq_false_of _ _ _ hpre (by decide), ht8]
  rfl

/-- C10: a COMMENT ON TABLE statement yields an object whose name is the
object-class keyword TABLE after ON, not the commented identifier, whatever
the qualified name and comment text are (first conjunct); and the comparator
produces at most one result per object name, so co-classed COMMENT statements
collapse to at most one compared entry per side (second conjunct). -/
theorem c10_comment_name :
    (∀ q txt : List Char,
      (parse_statement (str "COMMENT ON TABLE " ++ q ++ str " IS " ++ txt)).map
        (fun o => (o.name, o.type)) = some (str "TABLE", SQLObjectType.COMMENT)) ∧
    (∀ (src dock : List SQLObject) (n : List Char),
      ((compare_files src dock).filter (fun r => r.object_name = n)).length ≤ 1) := by
  constructor
  · intro q txt
    have hyne : ¬ (q ++ (str " IS " ++ txt)).reverse.dropWhile pySpace = [] := by
      rw [List.dropWhile_eq_nil_iff]
      push_neg
      refine ⟨'I', ?_, by decide⟩
      rw [List.mem_reverse]
      refine List.mem_append_right _ ?_
      exact List.mem_append_left _ (by decide)
    have hstrip := stripL_split 'C' (str "OMMENT ON TABLE ")
      (q ++ (str " IS " ++ txt)) (by decide) hyne
    set z := ((q ++ (str " IS " ++ txt)).reverse.dropWhile pySpace).reverse with hz
    rw [show ('C' :: str "OMMENT ON TABLE ") = str "COMMENT ON TABLE " from rfl] at hstrip
    unfold parse_statement
    dsimp only
    rw [List.append_assoc, List.append_assoc, hstrip]
    have hne : (str "COMMENT ON TABLE " ++ z).isEmpty = false := rfl
    rw [hne, c10_classifier z]
    dsimp only
    have hname : extract_object_name (str "COMMENT ON TABLE " ++ z)
        SQLObjectType.COMMENT = some (str "TABLE") := by
      show scanFirst headComment (str "COMMENT ON TABLE " ++ z) = some (str "TABLE")
      exact scanFirst_cons_some (c10_headComment_eval z)
    rw [hname]
    rfl
  · intro src dock n
    by_cases hn : n ∈ allKeyNames src dock
    · rw [compare_files_filter src dock n hn]
      exact Nat.le_refl 1
    · have hnil : (compare_files src dock).filter (fun r => r.object_name = n) = [] := by
        rw [List.filter_eq_nil]
        intro r hr
        obtain ⟨m, hm, rfl⟩ := List.mem_map.mp hr
        rw [pairResult_object_name m _ _ (fun o ho => lookupD_name ho)]
        simp only [decide_eq_true_eq]
        intro he
        exact hn (he ▸ hm)
      rw [hnil]
      exact Nat.zero_le 1

theorem rangeSplitAt (m n : ℕ) (h : m ≤ n) :
    List.range n = List.range m ++ List.range' m (n - m) := by
  obtain ⟨k, rfl⟩ : ∃ k, n = k + m := ⟨n - m, by omega⟩
  rw [List.range_eq_range', List.range_eq_range']
  rw [show k + m - m = k by omega]
  have := List.range'_append 0 m k 1
  simpa using this.symm

theorem validC_diag_right {a : List Char} {i j : ℕ} (h : validC a i j) :
    validC a j j := by
  obtain ⟨h1, h2, h3⟩ := h
  exact ⟨h1, rfl, by rw [h2]; exact h3⟩

theorem validC_diag_left {a : List Char} {i j : ℕ} (hi : i < a.length)
    (h : validC a i j) : validC a i i := ⟨hi, rfl, h.2.2⟩

theorem suffD_zero_of_not {a : List Char} {i j : ℕ} (h : ¬ validC a i j) :
    suffD a i j = 0 := by
  match i, j with
  | 0, j => simp only [suffD, if_neg h]
  | i + 1, 0 => simp only [suffD, if_neg h]
  | i + 1, j + 1 => simp only [suffD, if_neg h]

theorem suffD_pos {a : List Char} {i j : ℕ} (h : validC a i j) :
    1 ≤ suffD a i j := by
  match i, j with
  | 0, j => simp only [suffD, if_pos h]; omega
  | i + 1, 0 => simp only [suffD, if_pos h]; omega
  | i + 1, j + 1 => simp only [suffD, if_pos h]; omega

theorem suffD_le_right (a : List Char) : ∀ i j, suffD a i j ≤ j + 1 := by
  intro i
  induction i with
  | zero =>
    intro j
    simp only [suffD]
    split <;> omega
  | succ i ih =>
    intro j
    match j with
    | 0 => simp only [suffD]; split <;> omega
    | j + 1 =>
      simp only [suffD]
      split
      · have := ih j; omega
      · omega

theorem suffD_le_diag_right (a : List Char) : ∀ i j, suffD a i j ≤ suffD a j j := by
  intro i
  induction i with
  | zero =>
    intro j
    by_cases h : validC a 0 j
    · simp only [suffD, if_pos h]
      exact suffD_pos (validC_diag_right h)
    · simp only [suffD, if_neg h]; omega
  | succ i ih =>
    intro j
    match j with
    | 0 =>
      by_cases h : validC a (i + 1) 0
      · simp only [suffD, if_pos h]
        exact suffD_pos (validC_diag_right h)
      · simp only [suffD, if_neg h]; omega
    | j + 1 =>
      by_cases h : validC a (i + 1) (j + 1)
      · have hd := validC_diag_right h
        calc suffD a (i + 1) (j + 1) = suffD a i j + 1 := by
              simp only [suffD, if_pos h]
          _ ≤ suffD a j j + 1 := by have := ih j; omega
          _ = suffD a (j + 1) (j + 1) := by simp only [suffD, if_pos hd]
      · simp only [suffD, if_neg h]; omega

theorem suffD_le_diag_left (a : List Char) :
    ∀ i, i < a.length → ∀ j, suffD a i j ≤ suffD a i i := by
  intro i
  induction i with
  | zero =>
    intro hi j
    by_cases h : validC a 0 j
    · simp only [suffD, if_pos h]
      exact suffD_pos (validC_diag_left hi h)
    · simp only [suffD, if_neg h]; omega
  | succ i ih =>
    intro hi j
    match j with
    | 0 =>
      by_cases h : validC a (i + 1) 0
      · simp only [suffD, if_pos h]
        exact suffD_pos (validC_diag_left hi h)
      · simp only [suffD, if_neg h]; omega
    | j + 1 =>
      by_cases h : validC a (i + 1) (j + 1)
      · have hd := validC_diag_left hi h
        calc suffD a (i + 1) (j + 1) = suffD a i j + 1 := by
              simp only [suffD, if_pos h]
          _ ≤ suffD a i i + 1 := by have := ih (by omega) j; omega
          _ = suffD a (i + 1) (i + 1) := by simp only [suffD, if_pos hd]
      · simp only [suffD, if_neg h]; omega

theorem kCell_eq {a : List Char} {m j : ℕ} (h : validC a m j) :
    (if j = 0 then 0 else prevRow a m (j - 1)) + 1 = suffD a m j := by
  match m, j with
  | 0, 0 => simp [prevRow, suffD, if_pos h]
  | 0, j + 1 => simp only [prevRow, suffD, if_pos h, if_neg (Nat.succ_ne_zero j)]
  | m + 1, 0 => simp [prevRow, suffD, if_pos h]
  | m + 1, j + 1 =>
    simp only [prevRow, suffD, if_pos h, if_neg (Nat.succ_ne_zero j), Nat.add_sub_cancel]

theorem mem_b2jFun_self {a : List Char} {i j : ℕ} :
    j ∈ b2jFun a (a.getD i (Char.ofNat 0)) ↔ validC a i j := by
  unfold b2jFun validC
  by_cases hpop : isPopular a (a.getD i (Char.ofNat 0)) = true
  · rw [if_pos hpop]
    simp only [List.not_mem_nil, false_iff]
    intro hcon
    rw [hcon.2.2] at hpop
    cases hpop
  · rw [if_neg hpop]
    rw [Bool.not_eq_true] at hpop
    simp only [List.mem_filter, List.mem_range, decide_eq_true_eq]
    constructor
    · rintro ⟨h1, h2⟩
      exact ⟨h1, h2, hpop⟩
    · rintro ⟨h1, h2, -⟩
      exact ⟨h1, h2⟩

theorem innerNoUpd (a : List Char) (i : ℕ) (oldf : ℕ → ℕ) :
    ∀ (js : List ℕ) (f0 : ℕ → ℕ) (d bs : ℕ),
      (∀ j ∈ js, j < a.length) →
      (∀ j ∈ js, (if j = 0 then 0 else oldf (j - 1)) + 1 ≤ bs) →
      ∃ f2, js.foldl (innerStep 0 a.length i oldf) (f0, d, d, bs, false)
          = (f2, d, d, bs, false)
        ∧ ∀ j2, f2 j2 =
            if j2 ∈ js then (if j2 = 0 then 0 else oldf (j2 - 1)) + 1 else f0 j2 := by
  intro js
  induction js with
  | nil =>
    intro f0 d bs _ _
    exact ⟨f0, rfl, fun j2 => by simp⟩
  | cons j js ih =>
    intro f0 d bs hjs hk
    have hstep : innerStep 0 a.length i oldf (f0, d, d, bs, false) j
        = ((fun j2 => if j2 = j then (if j = 0 then 0 else oldf (j - 1)) + 1 else f0 j2),
            d, d, bs, false) := by
      unfold innerStep
      dsimp only
      rw [if_neg (by simp), if_neg (Nat.not_lt_zero j),
        if_neg (not_le.mpr (hjs j (List.mem_cons_self j js))),
        if_neg (not_lt.mpr (hk j (List.mem_cons_self j js)))]
    rw [List.foldl_cons, hstep]
    obtain ⟨f2, he, hf⟩ := ih _ d bs (fun j2 hj2 => hjs j2 (List.mem_cons_of_mem j hj2))
      (fun j2 hj2 => hk j2 (List.mem_cons_of_mem j hj2))
    refine ⟨f2, he, fun j2 => ?_⟩
    rw [hf j2]
    by_cases h1 : j2 ∈ js
    · simp [h1, List.mem_cons]
    · by_cases h2 : j2 = j
      · subst h2
        simp [h1, List.mem_cons]
      · simp [h1, h2, List.mem_cons]

theorem innerLoopSelf (a : List Char) (i : ℕ) (oldf : ℕ → ℕ) (A B : List ℕ)
    (f0 : ℕ → ℕ) (d bs : ℕ)
    (hA : ∀ j ∈ A, j < a.length ∧ (if j = 0 then 0 else oldf (j - 1)) + 1 ≤ bs)
    (hi : i < a.length)
    (hki : (if i = 0 then 0 else oldf (i - 1)) + 1 ≤ i + 1)
    (hB : ∀ j ∈ B, j < a.length ∧
      (if j = 0 then 0 else oldf (j - 1)) + 1 ≤ (if i = 0 then 0 else oldf (i - 1)) + 1)
    (hdbs : d + bs ≤ a.length) :
    ∃ f2 d2 bs2,
      (A ++ i :: B).foldl (innerStep 0 a.length i oldf) (f0, d, d, bs, false)
        = (f2, d2, d2, bs2, false)
      ∧ d2 + bs2 ≤ a.length ∧ bs ≤ bs2
      ∧ (if i = 0 then 0 else oldf (i - 1)) + 1 ≤ bs2
      ∧ ∀ j2, f2 j2 =
          if j2 ∈ A ++ i :: B then (if j2 = 0 then 0 else oldf (j2 - 1)) + 1 else f0 j2 := by
  rw [List.foldl_append]
  obtain ⟨fA, heA, hfA⟩ := innerNoUpd a i oldf A f0 d bs
    (fun j hj => (hA j hj).1) (fun j hj => (hA j hj).2)
  rw [heA, List.foldl_cons]
  by_cases hbk : bs < (if i = 0 then 0 else oldf (i - 1)) + 1
  · have hstep : innerStep 0 a.length i oldf (fA, d, d, bs, false) i
        = ((fun j2 => if j2 = i then (if i = 0 then 0 else oldf (i - 1)) + 1 else fA j2),
            i + 1 - ((if i = 0 then 0 else oldf (i - 1)) + 1),
            i + 1 - ((if i = 0 then 0 else oldf (i - 1)) + 1),
            (if i = 0 then 0 else oldf (i - 1)) + 1, false) := by
      unfold innerStep
      dsimp only
      rw [if_neg (by simp), if_neg (Nat.not_lt_zero i), if_neg (not_le.mpr hi), if_pos hbk]
    rw [hstep]
    obtain ⟨f2, he2, hf2⟩ := innerNoUpd a i oldf B _
      (i + 1 - ((if i = 0 then 0 else oldf (i - 1)) + 1))
      ((if i = 0 then 0 else oldf (i - 1)) + 1)
      (fun j hj => (hB j hj).1) (fun j hj => (hB j hj).2)
    refine ⟨f2, _, _, he2, by omega, by omega, by omega, fun j2 => ?_⟩
    rw [hf2 j2]
    by_cases h1 : j2 ∈ B
    · simp [h1, List.mem_append, List.mem_cons]
    · by_cases h2 : j2 = i
      · subst h2
        simp [h1, List.mem_append, List.mem_cons]
      · rw [if_neg h1]
        rw [if_neg h2, hfA j2]
        by_cases h3 : j2 ∈ A
        · simp [h1, h2, h3, List.mem_append, List.mem_cons]
        · simp [h1, h2, h3, List.mem_append, List.mem_cons]
  · have hstep : innerStep 0 a.length i oldf (fA, d, d, bs, false) i
        = ((fun j2 => if j2 = i then (if i = 0 then 0 else oldf (i - 1)) + 1 else fA j2),
            d, d, bs, false) := by
      unfold innerStep
      dsimp only
      rw [if_neg (by simp), if_neg (Nat.not_lt_zero i), if_neg (not_le.mpr hi), if_neg hbk]
    rw [hstep]
    obtain ⟨f2, he2, hf2⟩ := innerNoUpd a i oldf B _ d bs
      (fun j hj => (hB j hj).1) (fun j hj => by have := (hB j hj).2; omega)
    refine ⟨f2, _, _, he2, hdbs, le_rfl, by omega, fun j2 => ?_⟩
    rw [hf2 j2]
    by_cases h1 : j2 ∈ B
    · simp [h1, List.mem_append, List.mem_cons]
    · by_cases h2 : j2 = i
      · subst h2
        simp [h1, List.mem_append, List.mem_cons]
      · rw [if_neg h1]
        rw [if_neg h2, hfA j2]
        by_cases h3 : j2 ∈ A
        · simp [h1, h2, h3, List.mem_append, List.mem_cons]
        · simp [h1, h2, h3, List.mem_append, List.mem_cons]

theorem outerLoopSelf (a : List Char) :
    ∀ m, m ≤ a.length →
      ∃ f d bs,
        (List.range m).foldl (outerStep a (b2jFun a) 0 a.length) ((fun _ => 0), 0, 0, 0)
          = (f, d, d, bs)
        ∧ d + bs ≤ a.length ∧ (∀ i2, i2 < m → suffD a i2 i2 ≤ bs)
        ∧ ∀ j, f j = prevRow a m j := by
  intro m
  induction m with
  | zero =>
    intro _
    exact ⟨(fun _ => 0), 0, 0, rfl, by simp,
      fun i2 h => absurd h (Nat.not_lt_zero i2), fun j => rfl⟩
  | succ m ih =>
    intro hm
    obtain ⟨f, d, bs, heq, hdbs, hbnd, hf⟩ := ih (by omega)
    rw [List.range_succ, List.foldl_append, heq, List.foldl_cons, List.foldl_nil]
    by_cases hpop : isPopular a (a.getD m (Char.ofNat 0)) = true
    · have hjs : b2jFun a (a.getD m (Char.ofNat 0)) = [] := by
        unfold b2jFun
        rw [if_pos hpop]
      unfold outerStep
      dsimp only
      rw [hjs]
      refine ⟨(fun _ => 0), d, bs, rfl, hdbs, ?_, ?_⟩
      · intro i2 hi2
        by_cases h2 : i2 = m
        · subst h2
          rw [suffD_zero_of_not (fun hv => by rw [hv.2.2] at hpop; cases hpop)]
          omega
        · exact hbnd i2 (by omega)
      · intro j
        simp only [prevRow]
        exact (suffD_zero_of_not (fun hv => by rw [hv.2.2] at hpop; cases hpop)).symm
    · have hpop2 : isPopular a (a.getD m (Char.ofNat 0)) = false := by
        rwa [Bool.not_eq_true] at hpop
      have hjs : b2jFun a (a.getD m (Char.ofNat 0))
          = ((List.range m).filter
              (fun j => decide (a.getD j (Char.ofNat 0) = a.getD m (Char.ofNat 0))))
            ++ m :: ((List.range' (m + 1) (a.length - (m + 1))).filter
              (fun j => decide (a.getD j (Char.ofNat 0) = a.getD m (Char.ofNat 0)))) := by
        unfold b2jFun
        rw [if_neg hpop]
        rw [rangeSplitAt m a.length (by omega)]
        rw [show a.length - m = (a.length - (m + 1)) + 1 by omega]
        rw [List.range'_succ m (a.length - (m + 1)) 1]
        rw [List.filter_append, List.filter_cons]
        rw [if_pos (by simp)]
      have hks : ∀ j, validC a m j → (if j = 0 then 0 else f (j - 1)) + 1 = suffD a m j := by
        intro j hv
        rw [hf (j - 1)]
        exact kCell_eq hv
      have hvm : validC a m m := ⟨by omega, rfl, hpop2⟩
      obtain ⟨f2, d2, bs2, he2, hb1, hb2, hb3, hf2⟩ :=
        innerLoopSelf a m f
          ((List.range m).filter
            (fun j => decide (a.getD j (Char.ofNat 0) = a.getD m (Char.ofNat 0))))
          ((List.range' (m + 1) (a.length - (m + 1))).filter
            (fun j => decide (a.getD j (Char.ofNat 0) = a.getD m (Char.ofNat 0))))
          (fun _ => 0) d bs
          (by
            intro j hj
            obtain ⟨hjr, hpj⟩ := List.mem_filter.mp hj
            have hjm : j < m := List.mem_range.mp hjr
            have hv : validC a m j := ⟨by omega, of_decide_eq_true hpj, hpop2⟩
            refine ⟨by omega, ?_⟩
            rw [hks j hv]
            have h1 := suffD_le_diag_right a m j
            have h2 := hbnd j hjm
            omega)
          (by omega)
          (by
            rw [hks m hvm]
            exact suffD_le_right a m m)
          (by
            intro j hj
            obtain ⟨hjr, hpj⟩ := List.mem_filter.mp hj
            have hjm := List.mem_range'_1.mp hjr
            have hv : validC a m j := ⟨by omega, of_decide_eq_true hpj, hpop2⟩
            refine ⟨by omega, ?_⟩
            rw [hks j hv, hks m hvm]
            exact suffD_le_diag_left a m (by omega) j)
          hdbs
      unfold outerStep
      dsimp only
      rw [hjs, he2]
      refine ⟨f2, d2, bs2, rfl, hb1, ?_, ?_⟩
      · intro i2 hi2
        by_cases h2 : i2 = m
        · subst h2
          rw [hks i2 hvm] at hb3
          omega
        · have := hbnd i2 (by omega)
          omega
      · intro j
        simp only [prevRow]
        rw [hf2 j]
        by_cases hmem : j ∈ ((List.range m).filter
              (fun j => decide (a.getD j (Char.ofNat 0) = a.getD m (Char.ofNat 0))))
            ++ m :: ((List.range' (m + 1) (a.length - (m + 1))).filter
              (fun j => decide (a.getD j (Char.ofNat 0) = a.getD m (Char.ofNat 0))))
        · rw [if_pos hmem]
          have hv : validC a m j := mem_b2jFun_self.mp (by rw [hjs]; exact hmem)
          exact hks j hv
        · rw [if_neg hmem]
          refine (suffD_zero_of_not (fun hv => hmem ?_)).symm
          have := mem_b2jFun_self.mpr hv
          rwa [hjs] at this

theorem extendL_diag (a : List Char) :
    ∀ d bs, extendL a a (fun _ => false) 0 0 d (d, d, bs) = (0, 0, bs + d) := by
  intro d
  induction d with
  | zero => intro bs; rfl
  | succ d ih =>
    intro bs
    rw [extendL]
    rw [if_pos ⟨Nat.succ_pos d, Nat.succ_pos d, by simp, by simp⟩]
    simp only [Nat.add_sub_cancel]
    rw [ih (bs + 1), show bs + 1 + d = bs + (d + 1) from by omega]

theorem extendR_diag (a : List Char) :
    ∀ k s, s + k = a.length →
      extendR a a (fun _ => false) a.length a.length k (0, 0, s) = (0, 0, a.length) := by
  intro k
  induction k with
  | zero =>
    intro s hs
    rw [extendR]
    have : s = a.length := by omega
    rw [this]
  | succ k ih =>
    intro s hs
    rw [extendR]
    rw [if_pos ⟨by omega, by omega, by simp, by simp⟩]
    exact ih (s + 1) (by omega)

theorem flm_self (a : List Char) :
    findLongestMatch a a (b2jFun a) (fun _ => false) 0 a.length 0 a.length
      = (0, 0, a.length) := by
  obtain ⟨f, d, bs, heq, hdbs, -, -⟩ := outerLoopSelf a a.length le_rfl
  unfold findLongestMatch flmLoop
  dsimp only
  simp only [Nat.sub_zero]
  rw [← List.range_eq_range', heq]
  dsimp only
  rw [extendL_diag]
  dsimp only
  rw [Nat.zero_add, extendR_diag a (a.length - (bs + d)) (bs + d) (by omega)]
  dsimp only
  rw [extendJunkL]
  dsimp only
  rw [Nat.zero_add, Nat.sub_self, extendJunkR]

theorem matchesSum_self (a : List Char) (fuel : ℕ) :
    matchesSum a a (b2jFun a) (fun _ => false) (fuel + 1) (0, a.length, 0, a.length)
      = a.length := by
  rw [matchesSum, flm_self]
  dsimp only
  by_cases h : a.length = 0
  · rw [if_pos h, h]
  · rw [if_neg h, if_neg (by omega), if_neg (by omega)]
    omega

theorem ratioQ_self (a : List Char) : ratioQ a a = 1 := by
  unfold ratioQ
  dsimp only
  by_cases hT : a.length + a.length = 0
  · rw [if_pos hT]
  · rw [if_neg hT, matchesSum_self]
    have hq : ((a.length + a.length : ℕ) : ℚ) ≠ 0 := by
      exact_mod_cast hT
    rw [div_eq_one_iff_eq hq]
    push_cast
    ring

theorem calculate_accuracy_self (s d : SQLObject) (h : s.definition = d.definition) :
    calculate_accuracy s d = 100 := by
  unfold calculate_accuracy
  rw [h, ratioQ_self]
  norm_num

theorem compare_columns_self (l : List (List Char)) : compare_columns l l = ⟨[], [], []⟩ := by
  have hm : (dedupFirst l).filter (fun c => ¬ c ∈ l) = [] := by
    rw [List.filter_eq_nil_iff]
    intro c hc
    simp [mem_dedupFirst.mp hc]
  unfold compare_columns
  dsimp only
  rw [hm]
  rw [if_neg (by simp), if_neg (by simp), if_neg (by simp)]
  rfl

theorem compare_ctes_self (s : List CteD) : compare_ctes s s = ⟨[], [], []⟩ := by
  have hm : (dedupFirst (s.map CteD.name)).filter (fun c => ¬ c ∈ s.map CteD.name) = [] := by
    rw [List.filter_eq_nil_iff]
    intro c hc
    simp [mem_dedupFirst.mp hc]
  have hfm : ∀ n : List Char,
      (match s.find? (fun c => c.name = n), s.find? (fun c => c.name = n) with
        | some sc, some dcc =>
          if ¬ sc.definition = dcc.definition
          then some (str "CTE '" ++ n ++ str "' definition differs") else none
        | _, _ => none) = none := by
    intro n
    cases s.find? (fun c => c.name = n) with
    | none => rfl
    | some sc => simp
  unfold compare_ctes
  dsimp only
  rw [hm]
  rw [List.filterMap_eq_nil_iff.mpr (fun n _ => hfm n)]
  rw [if_neg (by simp), if_neg (by simp)]
  rfl

theorem compare_joins_self (s : List JoinD) : compare_joins s s = ⟨[], [], []⟩ := by
  have hm : (dedupFirst (s.map joinStr)).filter (fun c => ¬ c ∈ s.map joinStr) = [] := by
    rw [List.filter_eq_nil_iff]
    intro c hc
    simp [mem_dedupFirst.mp hc]
  unfold compare_joins
  dsimp only
  rw [hm]
  rw [if_neg (by simp), if_neg (by simp)]
  rfl

theorem compare_clauses_self (c : Option (List Char)) (t : List Char) :
    compare_clauses c c t = [] := by
  unfold compare_clauses
  rw [if_pos rfl]

theorem compare_comments_self (l : List (List Char)) : compare_comments l l = [] := by
  have hm : (dedupFirst l).filter (fun c => ¬ c ∈ l) = [] := by
    rw [List.filter_eq_nil_iff]
    intro c hc
    simp [mem_dedupFirst.mp hc]
  unfold compare_comments
  dsimp only
  rw [hm]
  rw [if_neg (by simp), if_neg (by simp)]
  rfl

theorem compare_functions_self (o : SQLObject) : compare_functions o o = ⟨[], [], []⟩ := by
  simp [compare_functions]

theorem compare_objects_self (o : SQLObject) :
    compare_objects o o =
      { object_name := o.name, object_type := o.type, status := str "MATCH",
        completeness_percentage := calculate_completeness o o,
        accuracy_percentage := calculate_accuracy o o,
        differences := [], missing_components := [], extra_components := [] } := by
  unfold compare_objects
  rw [compare_columns_self, compare_ctes_self, compare_joins_self, compare_functions_self,
    compare_clauses_self, compare_clauses_self, compare_clauses_self, compare_comments_self,
    ite_self]
  simp

theorem clauseMatch_self (c : Option (List Char)) : clauseMatch c c = clauseTotal c := by
  unfold clauseMatch clauseTotal
  cases c with
  | none => rfl
  | some c =>
    by_cases h : c.isEmpty
    · simp [h]
    · simp [h]

theorem compMatching_self (o : SQLObject)
    (h1 : o.columns.Nodup) (h2 : (o.ctes.map CteD.name).Nodup)
    (h3 : (o.joins.map joinKey).Nodup) : compMatching o o = compTotal o := by
  unfold compMatching compTotal
  have e1 : (dedupFirst o.columns).filter (fun c => c ∈ o.columns) = o.columns := by
    rw [dedupFirst_eq_self h1, List.filter_eq_self]
    intro c hc
    simp [hc]
  have e2 : (dedupFirst (o.ctes.map CteD.name)).filter
      (fun c => c ∈ o.ctes.map CteD.name) = o.ctes.map CteD.name := by
    rw [dedupFirst_eq_self h2, List.filter_eq_self]
    intro c hc
    simp [hc]
  have e3 : (dedupFirst (o.joins.map joinKey)).filter
      (fun c => c ∈ o.joins.map joinKey) = o.joins.map joinKey := by
    rw [dedupFirst_eq_self h3, List.filter_eq_self]
    intro c hc
    simp [hc]
  rw [e1, e2, e3, clauseMatch_self, clauseMatch_self, clauseMatch_self,
    List.length_map, List.length_map]

/-- C2, counterexample.  The single-object sequence holding the parse of
CREATE OR REPLACE VIEW v AS SELECT a, a FROM t is compared against itself, so
the two sequences have identical name sets and byte-identical definition text
per name; yet the one result, while its status is MATCH, has completeness 50
rather than 100: the reference SELECT list repeats the column a, the expected
component count is the raw length 2, but the matched count deduplicates,
giving 1 of 2.  This refutes the claim that completeness is always 100 under
these hypotheses. -/
theorem c2_counterexample :
    parse_statement c2dupStmt = some c2dupObj
    ∧ c2dupObj.columns = [str "a", str "a"]
    ∧ namesOf [c2dupObj] = namesOf [c2dupObj]
    ∧ (compare_files [c2dupObj] [c2dupObj]).map ComparisonResult.status = [str "MATCH"]
    ∧ (compare_files [c2dupObj] [c2dupObj]).map ComparisonResult.completeness_percentage
        = [50]
    ∧ ¬ (compare_files [c2dupObj] [c2dupObj]).map ComparisonResult.completeness_percentage
        = [100] := by
  have hfiles : compare_files [c2dupObj] [c2dupObj]
      = [compare_objects c2dupObj c2dupObj] := by
    unfold compare_files
    rw [show allKeyNames [c2dupObj] [c2dupObj] = [c2dupObj.name] from by decide]
    rw [List.map_cons, List.map_nil]
    rw [show lookupD [c2dupObj] c2dupObj.name = some c2dupObj from by decide]
    rfl
  have hc : calculate_completeness c2dupObj c2dupObj = 50 := by
    unfold calculate_completeness
    rw [show compMatching c2dupObj c2dupObj = 1 from by decide,
      show compTotal c2dupObj = 2 from by decide]
    norm_num
  refine ⟨by decide, by decide, rfl, ?_, ?_, ?_⟩
  · rw [hfiles, compare_objects_self]
    rfl
  · rw [hfiles, compare_objects_self]
    simp only [List.map_cons, List.map_nil]
    rw [hc]
  · rw [hfiles, compare_objects_self]
    simp only [List.map_cons, List.map_nil]
    rw [hc]
    simp only [List.cons.injEq, and_true]
    norm_num

/-- C2, amended.  For every pair of object sequences whose name-keyed
dictionaries agree on every name, with the added hypothesis that no reference
object repeats a column value, a CTE name or a type-table JOIN key, every
comparison result has status MATCH, completeness 100 and accuracy 100.
Without the no-repeat hypothesis the status and accuracy conclusions still
hold but completeness can fall short, as the counterexample shows: the
expected component count uses raw occurrence counts while the matched count
uses sets. -/
theorem c2_amended (src dock : List SQLObject)
    (hl : ∀ n, lookupD src n = lookupD dock n)
    (hnd : ∀ n o, lookupD src n = some o →
      o.columns.Nodup ∧ (o.ctes.map CteD.name).Nodup ∧ (o.joins.map joinKey).Nodup) :
    ∀ r ∈ compare_files src dock,
      r.status = str "MATCH" ∧ r.completeness_percentage = 100
        ∧ r.accuracy_percentage = 100 := by
  intro r hr
  unfold compare_files at hr
  obtain ⟨n, hn, rfl⟩ := List.mem_map.mp hr
  have hn2 : n ∈ namesOf src ∨ n ∈ namesOf dock := mem_allKeyNames.mp hn
  have hsome : (lookupD src n).isSome = true := by
    cases hn2 with
    | inl h => exact lookupD_isSome_iff.mpr h
    | inr h =>
      rw [hl n]
      exact lookupD_isSome_iff.mpr h
  obtain ⟨o, ho⟩ := Option.isSome_iff_exists.mp hsome
  have hd := hl n
  rw [ho] at hd
  rw [ho, ← hd]
  show (compare_objects o o).status = str "MATCH"
    ∧ (compare_objects o o).completeness_percentage = 100
    ∧ (compare_objects o o).accuracy_percentage = 100
  obtain ⟨h1, h2, h3⟩ := hnd n o ho
  rw [compare_objects_self]
  exact ⟨rfl, calculate_completeness_eq_100 o o (compMatching_self o h1 h2 h3),
    calculate_accuracy_self o o rfl⟩

/-- C2, witness for the amended theorem: the parsed reference table of the
third claim compared against itself satisfies the hypotheses (its dictionary
trivially agrees with itself and its columns, CTEs and JOINs repeat nothing),
and the one produced result is a full match with both scores 100. -/
theorem c2_amended_witness :
    (compare_files [c3refObj] [c3refObj]).map ComparisonResult.status = [str "MATCH"]
    ∧ (compare_files [c3refObj] [c3refObj]).map ComparisonResult.completeness_percentage
        = [100]
    ∧ (compare_files [c3refObj] [c3refObj]).map ComparisonResult.accuracy_percentage
        = [100] := by
  have hfiles : compare_files [c3refObj] [c3refObj]
      = [compare_objects c3refObj c3refObj] := by
    unfold compare_files
    rw [show allKeyNames [c3refObj] [c3refObj] = [c3refObj.name] from by decide]
    rw [List.map_cons, List.map_nil]
    rw [show lookupD [c3refObj] c3refObj.name = some c3refObj from by decide]
    rfl
  have H := c2_amended [c3refObj] [c3refObj] (fun n => rfl)
    (fun n o ho => by
      have ho2 : o = c3refObj := by
        have h : (if c3refObj.name = n then some c3refObj else (none : Option SQLObject))
            = some o := ho
        split at h
        · exact (Option.some.inj h).symm
        · cases h
      rw [ho2]
      exact ⟨by decide, by decide, by decide⟩)
    (compare_objects c3refObj c3refObj)
    (by rw [hfiles]; exact List.mem_cons_self _ _)
  rw [hfiles]
  simp only [List.map_cons, List.map_nil]
  exact ⟨by rw [H.1], by rw [H.2.1], by rw [H.2.2]⟩

theorem charOfNat_toNat (k : ℕ) (hv : k.isValidChar) : (Char.ofNat k).toNat = k := by
  unfold Char.ofNat
  rw [dif_pos hv]
  rfl

theorem wordChar_upperC {c : Char} (h : wordChar c = true) : wordChar (upperC c) = true := by
  unfold upperC
  split
  · rename_i hc
    have h97 : 97 ≤ c.toNat := hc.1
    have h122 : c.toNat ≤ 122 := hc.2
    have hv : (c.toNat - 32).isValidChar := Or.inl (by omega)
    have ht : (Char.ofNat (c.toNat - 32)).toNat = c.toNat - 32 := charOfNat_toNat _ hv
    have hA : 'A' ≤ Char.ofNat (c.toNat - 32) := by
      show 'A'.toNat ≤ (Char.ofNat (c.toNat - 32)).toNat
      rw [ht, show 'A'.toNat = 65 from rfl]
      omega
    have hZ : Char.ofNat (c.toNat - 32) ≤ 'Z' := by
      show (Char.ofNat (c.toNat - 32)).toNat ≤ 'Z'.toNat
      rw [ht, show 'Z'.toNat = 90 from rfl]
      omega
    simp only [wordChar, Char.isAlphanum, Char.isAlpha, Char.isUpper, Bool.or_eq_true,
      decide_eq_true_eq, ge_iff_le, Bool.and_eq_true]
    exact Or.inl (Or.inl (Or.inl ⟨hA, hZ⟩))
  · exact h

theorem wordChar_not_space {c : Char} (h : wordChar c = true) : pySpace c = false := by
  cases hs : pySpace c
  · rfl
  · exfalso
    simp only [pySpace, Bool.or_eq_true, decide_eq_true_eq] at hs
    rcases hs with ((((h1 | h1) | h1) | h1) | h1) | h1 <;> subst h1 <;> exact absurd h (by decide)

theorem upperL_ne_star {l : List Char} (h : l.all wordChar = true) :
    ¬ upperL l = str "*" := by
  intro heq
  have hmem : '*' ∈ upperL l := by rw [heq]; exact List.mem_singleton_self _
  obtain ⟨c, hc, hce⟩ := List.mem_map.mp hmem
  have := wordChar_upperC (List.all_eq_true.mp h c hc)
  rw [hce] at this
  exact absurd this (by decide)

theorem upperL_no_space {l : List Char} (h : l.all wordChar = true) :
    ∀ d ∈ upperL l, ¬ d = ' ' := by
  intro d hd heq
  obtain ⟨c, hc, hce⟩ := List.mem_map.mp hd
  have := wordChar_upperC (List.all_eq_true.mp h c hc)
  rw [hce, heq] at this
  exact absurd this (by decide)

theorem ciDrop_head_none {p0 : Char} {p' : List Char} {c : Char} (z : List Char)
    (h : ¬ lowerC c = p0) : ciDrop (p0 :: p') (c :: z) = none := by
  unfold ciDrop
  rw [if_neg]
  rintro ⟨h1, -⟩
  rw [show (p0 :: p').length = p'.length + 1 from rfl, List.take_succ_cons] at h1
  simp only [lowerL, List.map_cons] at h1
  exact h (by injection h1)

theorem ciDrop_append_none (p x y : List Char) (hlen : p.length ≤ x.length)
    (hne : ¬ lowerL (x.take p.length) = p) : ciDrop p (x ++ y) = none := by
  unfold ciDrop
  rw [if_neg]
  rintro ⟨h1, -⟩
  rw [List.take_append_of_le_length hlen] at h1
  exact hne h1

theorem ciDrop_seg {p : List Char} (s y : List Char) (h : lowerL s = p) :
    ciDrop p (s ++ y) = some y := by
  have hlen : p.length = s.length := by rw [← h]; simp [lowerL]
  unfold ciDrop
  rw [if_pos]
  · rw [hlen, List.drop_left]
  · constructor
    · rw [hlen, List.take_left]
      exact h
    · rw [hlen]
      simp

theorem ciDrop_some_drop {p l r : List Char} (h : ciDrop p l = some r) :
    r = l.drop p.length := by
  unfold ciDrop at h
  split at h
  · exact (Option.some.inj h).symm
  · cases h

theorem ciDrop_some_cond {p l r : List Char} (h : ciDrop p l = some r) :
    lowerL (l.take p.length) = p := by
  unfold ciDrop at h
  split at h
  · rename_i hc
    exact hc.1
  · cases h

theorem scanFirst_append_none {α : Type} (f : List Char → Option α) (x y : List Char)
    (h : ∀ c s, (c :: s) <:+ x → f ((c :: s) ++ y) = none) :
    scanFirst f (x ++ y) = scanFirst f y := by
  induction x with
  | nil => rfl
  | cons c cs ih =>
    have hstep : f ((c :: cs) ++ y) = none := h c cs List.suffix_rfl
    have hsc : scanFirst f ((c :: cs) ++ y) = scanFirst f (cs ++ y) := by
      rw [List.cons_append] at hstep ⊢
      unfold scanFirst
      rw [hstep]
      cases hcy : cs ++ y with
      | nil => rfl
      | cons d ds => rfl
    rw [hsc]
    exact ih (fun c2 s2 hs2 => h c2 s2 (hs2.trans (List.suffix_cons c cs)))

theorem ws1_none_word_head (u v : List Char) (hu : ¬ u = []) (hw : u.all wordChar = true) :
    ws1 (u ++ v) = none := by
  cases u with
  | nil => exact absurd rfl hu
  | cons c cs =>
    have hc : pySpace c = false := wordChar_not_space (by simp [List.all_cons] at hw; exact hw.1)
    unfold ws1
    rw [if_pos]
    show ((c :: (cs ++ v)).takeWhile pySpace).isEmpty = true
    rw [List.takeWhile_cons_of_neg (by rw [hc]; exact fun he => by cases he)]
    rfl

theorem takeWhile_all_head {p : Char → Bool} (x : List Char) (hx : x.all p = true)
    {c : Char} (hc : p c = false) (z : List Char) :
    (x ++ c :: z).takeWhile p = x ∧ (x ++ c :: z).dropWhile p = c :: z := by
  induction x with
  | nil =>
    constructor
    · show (c :: z).takeWhile p = []
      rw [List.takeWhile_cons_of_neg (by rw [hc]; exact fun he => by cases he)]
    · show (c :: z).dropWhile p = c :: z
      rw [List.dropWhile_cons_of_neg (by rw [hc]; exact fun he => by cases he)]
  | cons d ds ih =>
    simp only [List.all_cons, Bool.and_eq_true] at hx
    have ihr := ih hx.2
    constructor
    · show ((d :: (ds ++ c :: z))).takeWhile p = d :: ds
      rw [List.takeWhile_cons_of_pos (by rw [hx.1])]
      rw [ihr.1]
    · show ((d :: (ds ++ c :: z))).dropWhile p = c :: z
      rw [List.dropWhile_cons_of_pos (by rw [hx.1])]
      exact ihr.2

theorem dropWhile_eq_self_of_nil_takeWhile {p : Char → Bool} {l : List Char}
    (h : l.takeWhile p = []) : l.dropWhile p = l := by
  cases l with
  | nil => rfl
  | cons c cs =>
    by_cases hc : p c = true
    · rw [List.takeWhile_cons_of_pos hc] at h
      cases h
    · rw [List.dropWhile_cons_of_neg (by simp [hc])]

theorem stripL_eq_self {l : List Char} (h1 : l.takeWhile pySpace = [])
    (h2 : l.reverse.takeWhile pySpace = []) : stripL l = l := by
  unfold stripL
  rw [dropWhile_eq_self_of_nil_takeWhile h1, dropWhile_eq_self_of_nil_takeWhile h2,
    List.reverse_reverse]

theorem headWhere_of_ciDrop_none (l : List Char) (h : ciDrop (str "where") l = none) :
    headWhere l = none := by
  unfold headWhere
  rw [h]
  rfl

theorem headWhere_of_ws1_none {l r : List Char} (h1 : ciDrop (str "where") l = some r)
    (h2 : ws1 r = none) : headWhere l = none := by
  unfold headWhere
  rw [h1]
  simp only [Option.bind_eq_bind, Option.some_bind]
  rw [h2]
  rfl

theorem headAs_of_ciDrop_none (l : List Char) (h : ciDrop (str "as") l = none) :
    headAs l = none := by
  unfold headAs
  rw [h]
  rfl

theorem headAs_of_ws1_none {l r : List Char} (h1 : ciDrop (str "as") l = some r)
    (h2 : ws1 r = none) : headAs l = none := by
  unfold headAs
  rw [h1]
  simp only [Option.bind_eq_bind, Option.some_bind]
  exact h2

theorem headSelect_of_ciDrop_none (l : List Char) (h : ciDrop (str "select") l = none) :
    headSelect l = none := by
  unfold headSelect
  rw [h]
  rfl

theorem ws1_cons_nonspace (c : Char) (z : List Char) (h : pySpace c = false) :
    ws1 (c :: z) = none := by
  unfold ws1
  rw [if_pos]
  rw [List.takeWhile_cons_of_neg (by simp [h])]
  rfl

theorem drop_all_word {u : List Char} (k : ℕ) (h : u.all wordChar = true) :
    (u.drop k).all wordChar = true := by
  rw [List.all_eq_true] at h ⊢
  exact fun d hd => h d (List.drop_subset k u hd)

theorem headWhere_word_comma (c : Char) (s z : List Char)
    (hc : wordChar c = true) (hs : s.all wordChar = true) :
    headWhere ((c :: s) ++ ',' :: z) = none := by
  have hall : (c :: s).all wordChar = true := by simp [List.all_cons, hc, hs]
  cases hcd : ciDrop (str "where") ((c :: s) ++ ',' :: z) with
  | none => exact headWhere_of_ciDrop_none _ hcd
  | some r =>
    have hr : r = ((c :: s) ++ ',' :: z).drop 5 := ciDrop_some_drop hcd
    have hcond : lowerL (((c :: s) ++ ',' :: z).take 5) = str "where" := ciDrop_some_cond hcd
    by_cases h5 : 5 ≤ (c :: s).length
    · by_cases h5e : (c :: s).length = 5
      · refine headWhere_of_ws1_none hcd ?_
        rw [hr, ← h5e, List.drop_append_of_le_length le_rfl, List.drop_length,
          List.nil_append]
        exact ws1_cons_nonspace ',' z (by decide)
      · refine headWhere_of_ws1_none hcd ?_
        rw [hr, List.drop_append_of_le_length h5]
        refine ws1_none_word_head _ _ (fun he => ?_) (drop_all_word 5 hall)
        have hlen : ((c :: s).drop 5).length = (c :: s).length - 5 := List.length_drop 5 _
        rw [he] at hlen
        simp only [List.length_nil] at hlen
        omega
    · exfalso
      have hmem : ',' ∈ ((c :: s) ++ ',' :: z).take 5 := by
        rw [List.take_append_eq_append_take]
        refine List.mem_append_right _ ?_
        rw [show 5 - (c :: s).length = (5 - (c :: s).length - 1) + 1 from by omega,
          List.take_succ_cons]
        exact List.mem_cons_self _ _
      have : lowerC ',' ∈ lowerL (((c :: s) ++ ',' :: z).take 5) :=
        List.mem_map_of_mem lowerC hmem
      rw [hcond] at this
      exact absurd this (by decide)

theorem headWhere_word_space (c : Char) (s z : List Char)
    (hc : wordChar c = true) (hs : s.all wordChar = true)
    (hne : ¬ lowerL (c :: s) = str "where") :
    headWhere ((c :: s) ++ ' ' :: z) = none := by
  have hall : (c :: s).all wordChar = true := by simp [List.all_cons, hc, hs]
  cases hcd : ciDrop (str "where") ((c :: s) ++ ' ' :: z) with
  | none => exact headWhere_of_ciDrop_none _ hcd
  | some r =>
    have hr : r = ((c :: s) ++ ' ' :: z).drop 5 := ciDrop_some_drop hcd
    have hcond : lowerL (((c :: s) ++ ' ' :: z).take 5) = str "where" := ciDrop_some_cond hcd
    by_cases h5 : 5 ≤ (c :: s).length
    · by_cases h5e : (c :: s).length = 5
      · exfalso
        rw [← h5e, List.take_left] at hcond
        exact hne hcond
      · refine headWhere_of_ws1_none hcd ?_
        rw [hr, List.drop_append_of_le_length h5]
        refine ws1_none_word_head _ _ (fun he => ?_) (drop_all_word 5 hall)
        have hlen : ((c :: s).drop 5).length = (c :: s).length - 5 := List.length_drop 5 _
        rw [he] at hlen
        simp only [List.length_nil] at hlen
        omega
    · exfalso
      have hmem : ' ' ∈ ((c :: s) ++ ' ' :: z).take 5 := by
        rw [List.take_append_eq_append_take]
        refine List.mem_append_right _ ?_
        rw [show 5 - (c :: s).length = (5 - (c :: s).length - 1) + 1 from by omega,
          List.take_succ_cons]
        exact List.mem_cons_self _ _
      have : lowerC ' ' ∈ lowerL (((c :: s) ++ ' ' :: z).take 5) :=
        List.mem_map_of_mem lowerC hmem
      rw [hcond] at this
      exact absurd this (by decide)

theorem headAs_word_word (c : Char) (s : List Char) (d1 d2 : Char) (z : List Char)
    (hc : wordChar c = true) (hs : s.all wordChar = true)
    (hd1 : wordChar d1 = true) (hd2 : wordChar d2 = true) :
    headAs ((c :: s) ++ d1 :: d2 :: z) = none := by
  have hall : ((c :: s) ++ [d1, d2]).all wordChar = true := by
    simp [List.all_cons, List.all_append, hc, hs, hd1, hd2]
  have hsplit : (c :: s) ++ d1 :: d2 :: z = ((c :: s) ++ [d1, d2]) ++ z := by
    simp
  cases hcd : ciDrop (str "as") ((c :: s) ++ d1 :: d2 :: z) with
  | none => exact headAs_of_ciDrop_none _ hcd
  | some r =>
    have hr : r = ((c :: s) ++ d1 :: d2 :: z).drop 2 := ciDrop_some_drop hcd
    refine headAs_of_ws1_none hcd ?_
    rw [hr, hsplit, List.drop_append_of_le_length (by simp)]
    refine ws1_none_word_head _ _ (fun he => ?_) (drop_all_word 2 hall)
    have hlen : (((c :: s) ++ [d1, d2]).drop 2).length = ((c :: s) ++ [d1, d2]).length - 2 :=
      List.length_drop 2 _
    rw [he] at hlen
    simp only [List.length_nil, List.length_append, List.length_cons] at hlen
    omega

theorem headAs_word_space (c : Char) (s z : List Char)
    (hc : wordChar c = true) (hs : s.all wordChar = true)
    (hne : ¬ lowerL (c :: s) = str "as") :
    headAs ((c :: s) ++ ' ' :: z) = none := by
  have hall : (c :: s).all wordChar = true := by simp [List.all_cons, hc, hs]
  cases hcd : ciDrop (str "as") ((c :: s) ++ ' ' :: z) with
  | none => exact headAs_of_ciDrop_none _ hcd
  | some r =>
    have hr : r = ((c :: s) ++ ' ' :: z).drop 2 := ciDrop_some_drop hcd
    have hcond : lowerL (((c :: s) ++ ' ' :: z).take 2) = str "as" := ciDrop_some_cond hcd
    by_cases h2 : 2 ≤ (c :: s).length
    · by_cases h2e : (c :: s).length = 2
      · exfalso
        rw [← h2e, List.take_left] at hcond
        exact hne hcond
      · refine headAs_of_ws1_none hcd ?_
        rw [hr, List.drop_append_of_le_length h2]
        refine ws1_none_word_head _ _ (fun he => ?_) (drop_all_word 2 hall)
        have hlen : ((c :: s).drop 2).length = (c :: s).length - 2 := List.length_drop 2 _
        rw [he] at hlen
        simp only [List.length_nil] at hlen
        omega
    · exfalso
      have hmem : ' ' ∈ ((c :: s) ++ ' ' :: z).take 2 := by
        rw [List.take_append_eq_append_take]
        refine List.mem_append_right _ ?_
        rw [show 2 - (c :: s).length = (2 - (c :: s).length - 1) + 1 from by omega,
          List.take_succ_cons]
        exact List.mem_cons_self _ _
      have : lowerC ' ' ∈ lowerL (((c :: s) ++ ' ' :: z).take 2) :=
        List.mem_map_of_mem lowerC hmem
      rw [hcond] at this
      exact absurd this (by decide)

theorem headWhere_cons_nonw (c : Char) (z : List Char) (h : ¬ lowerC c = 'w') :
    headWhere (c :: z) = none :=
  headWhere_of_ciDrop_none _ (ciDrop_head_none z h)

theorem headAs_cons_nona (c : Char) (z : List Char) (h : ¬ lowerC c = 'a') :
    headAs (c :: z) = none :=
  headAs_of_ciDrop_none _ (ciDrop_head_none z h)

theorem headSelect_cons_nons (c : Char) (z : List Char) (h : ¬ lowerC c = 's') :
    headSelect (c :: z) = none :=
  headSelect_of_ciDrop_none _ (ciDrop_head_none z h)

theorem headSelect_append_none (x y : List Char) (h6 : 6 ≤ x.length)
    (hne : ¬ lowerL (x.take 6) = str "select") : headSelect (x ++ y) = none :=
  headSelect_of_ciDrop_none _ (ciDrop_append_none _ x y h6 hne)

theorem headAs_append_none (x y : List Char) (h2 : 2 ≤ x.length)
    (hne : ¬ lowerL (x.take 2) = str "as") : headAs (x ++ y) = none :=
  headAs_of_ciDrop_none _ (ciDrop_append_none _ x y h2 hne)

theorem fromTermAt_cons_nonspace (c : Char) (z : List Char) (h : pySpace c = false) :
    fromTermAt (c :: z) = false := by
  unfold fromTermAt wsRun
  rw [List.takeWhile_cons_of_neg (by simp [h])]
  simp

theorem fromScan_word (s y : List Char) (hs : s.all wordChar = true) :
    fromScan (s ++ y) = (fromScan y).map (fun v => s ++ v) := by
  induction s with
  | nil =>
    show fromScan y = _
    cases fromScan y with
    | none => rfl
    | some v => simp
  | cons c cs ih =>
    simp only [List.all_cons, Bool.and_eq_true] at hs
    show fromScan (c :: (cs ++ y)) = _
    rw [fromScan]
    rw [if_neg (by rw [fromTermAt_cons_nonspace _ _ (wordChar_not_space hs.1)]; simp)]
    rw [ih hs.2]
    cases fromScan y with
    | none => rfl
    | some v => simp

theorem takeWhile_nil_of_all_word {x : List Char} (hx : x.all wordChar = true) :
    x.takeWhile pySpace = [] := by
  cases x with
  | nil => rfl
  | cons c cs =>
    simp only [List.all_cons, Bool.and_eq_true] at hx
    rw [List.takeWhile_cons_of_neg (by simp [wordChar_not_space hx.1])]

theorem ciTest_false_word_space (c : Char) (s z : List Char)
    (hc : wordChar c = true) (hs : s.all wordChar = true)
    (hne : ¬ lowerL ((c :: s).take 4) = str "from") :
    ciTest (str "from") ((c :: s) ++ ' ' :: z) = false := by
  unfold ciTest
  by_cases h4 : 4 ≤ (c :: s).length
  · rw [ciDrop_append_none (str "from") (c :: s) (' ' :: z) (by exact h4) hne]
    rfl
  · cases hcd : ciDrop (str "from") ((c :: s) ++ ' ' :: z) with
    | none => rfl
    | some r =>
      exfalso
      have hcond : lowerL (((c :: s) ++ ' ' :: z).take 4) = str "from" := ciDrop_some_cond hcd
      have hmem : ' ' ∈ ((c :: s) ++ ' ' :: z).take 4 := by
        rw [List.take_append_eq_append_take]
        refine List.mem_append_right _ ?_
        rw [show 4 - (c :: s).length = (4 - (c :: s).length - 1) + 1 from by omega,
          List.take_succ_cons]
        exact List.mem_cons_self _ _
      have : lowerC ' ' ∈ lowerL (((c :: s) ++ ' ' :: z).take 4) :=
        List.mem_map_of_mem lowerC hmem
      rw [hcond] at this
      exact absurd this (by decide)

theorem splitOnChar_no_sep (sep : Char) (x : List Char) (h : ∀ c ∈ x, ¬ c = sep) :
    splitOnChar sep x = [x] := by
  induction x with
  | nil => rfl
  | cons c cs ih =>
    rw [splitOnChar]
    rw [if_neg (h c (List.mem_cons_self _ _))]
    rw [ih (fun d hd => h d (List.mem_cons_of_mem c hd))]

theorem splitOnChar_head_seg (sep : Char) (x z : List Char) (h : ∀ c ∈ x, ¬ c = sep) :
    splitOnChar sep (x ++ sep :: z) = x :: splitOnChar sep z := by
  induction x with
  | nil =>
    show splitOnChar sep (sep :: z) = _
    rw [splitOnChar]
    simp
  | cons c cs ih =>
    show splitOnChar sep (c :: (cs ++ sep :: z)) = _
    rw [splitOnChar]
    rw [if_neg (h c (List.mem_cons_self _ _))]
    rw [ih (fun d hd => h d (List.mem_cons_of_mem c hd))]

theorem containsSub_space_false (p' : List Char) (u : List Char)
    (h : ∀ d ∈ u, ¬ d = ' ') : containsSub (' ' :: p') u = false := by
  induction u with
  | nil =>
    show containsSub (' ' :: p') [] = false
    unfold containsSub startsWithL
    simp
  | cons c cs ih =>
    unfold containsSub
    rw [ih (fun d hd => h d (List.mem_cons_of_mem c hd))]
    suffices hsw : startsWithL (' ' :: p') (c :: cs) = false by rw [hsw]; rfl
    unfold startsWithL
    rw [show (' ' :: p').length = p'.length + 1 from rfl, List.take_succ_cons]
    simp only [decide_eq_false_iff_not]
    intro he
    exact h c (List.mem_cons_self _ _) (by injection he)

theorem parenSub_no_paren (l : List Char) (h : ∀ c ∈ l, ¬ c = '(') :
    parenSub l = l := by
  unfold parenSub
  rw [parenSubF]
  rw [List.dropWhile_eq_nil_iff.mpr (by intro x hx; simp [h x hx])]

theorem getLastD_single (x : List Char) : [x].getLastD [] = x := rfl

theorem reverse_all_word {x : List Char} (hx : x.all wordChar = true) :
    x.reverse.all wordChar = true := by
  rw [List.all_reverse]
  exact hx

theorem colName_word (x : List Char) (hx : x.all wordChar = true) (hne : ¬ x = []) :
    colName x = x := by
  unfold colName
  dsimp only
  have hstrip : stripL x = x :=
    stripL_eq_self (takeWhile_nil_of_all_word hx)
      (takeWhile_nil_of_all_word (reverse_all_word hx))
  rw [hstrip]
  rw [show str " AS " = ' ' :: str "AS " from rfl]
  rw [containsSub_space_false _ _ (upperL_no_space hx)]
  rw [if_neg (by simp)]
  rw [parenSub_no_paren x (fun c hc he => by
    have := List.all_eq_true.mp hx c hc
    rw [he] at this
    exact absurd this (by decide))]
  rw [splitOnChar_no_sep '.' x (fun c hc he => by
    have := List.all_eq_true.mp hx c hc
    rw [he] at this
    exact absurd this (by decide))]
  exact getLastD_single x

theorem colName_space_word (x : List Char) (hx : x.all wordChar = true) (hne : ¬ x = []) :
    colName (' ' :: x) = x := by
  unfold colName
  dsimp only
  have hstrip : stripL (' ' :: x) = x := by
    unfold stripL
    rw [List.dropWhile_cons_of_pos (by decide)]
    rw [dropWhile_eq_self_of_nil_takeWhile (takeWhile_nil_of_all_word hx)]
    rw [dropWhile_eq_self_of_nil_takeWhile (takeWhile_nil_of_all_word (reverse_all_word hx))]
    exact List.reverse_reverse x
  rw [hstrip]
  rw [show str " AS " = ' ' :: str "AS " from rfl]
  rw [containsSub_space_false _ _ (upperL_no_space hx)]
  rw [if_neg (by simp)]
  rw [parenSub_no_paren x (fun c hc he => by
    have := List.all_eq_true.mp hx c hc
    rw [he] at this
    exact absurd this (by decide))]
  rw [splitOnChar_no_sep '.' x (fun c hc he => by
    have := List.all_eq_true.mp hx c hc
    rw [he] at this
    exact absurd this (by decide))]
  exact getLastD_single x

theorem ws1_space_word (w : List Char) (hw : w.takeWhile pySpace = []) :
    ws1 (' ' :: w) = some w := by
  unfold ws1
  rw [List.takeWhile_cons_of_pos (by decide), hw]
  rw [if_neg (by simp)]
  rw [List.dropWhile_cons_of_pos (by decide), dropWhile_eq_self_of_nil_takeWhile hw]

theorem wordRun_all_boundary (x : List Char) (hx : x.all wordChar = true)
    (hne : ¬ x = []) (c : Char) (z : List Char) (hc : wordChar c = false) :
    wordRun (x ++ c :: z) = some (x, c :: z) := by
  obtain ⟨htw, -⟩ := takeWhile_all_head x hx hc z
  unfold wordRun
  rw [htw]
  cases x with
  | nil => exact absurd rfl hne
  | cons d ds =>
    show some (d :: ds, ((d :: ds) ++ c :: z).drop (d :: ds).length) = _
    rw [List.drop_left]

theorem scanFirst_cons_none {α : Type} {f : List Char → Option α} {c : Char}
    {cs : List Char} (h : f (c :: cs) = none) :
    scanFirst f (c :: cs) = scanFirst f cs := by
  unfold scanFirst
  rw [h]
  cases hcy : cs with
  | nil => rfl
  | cons d ds => rfl

theorem all_of_suffix {u x : List Char} (hs : u <:+ x) (hx : x.all wordChar = true) :
    u.all wordChar = true := by
  rw [List.all_eq_true] at hx ⊢
  exact fun d hd => hx d (hs.subset hd)

theorem suffix_not_where {u : List Char}
    (hu : endsWithL (str "where") (lowerL u) = false) :
    ∀ s, s <:+ u → ¬ lowerL s = str "where" := by
  intro s hs heq
  obtain ⟨p, hp⟩ := hs
  have hlen : (lowerL s).length = 5 := by rw [heq]; rfl
  have hslen : s.length = 5 := by simpa [lowerL] using hlen
  have hle : (lowerL u) = lowerL p ++ lowerL s := by
    rw [← hp]
    simp [lowerL]
  have hdrop : (lowerL u).drop ((lowerL u).length - 5) = lowerL s := by
    rw [hle]
    have h1 : (lowerL p ++ lowerL s).length = (lowerL p).length + 5 := by
      simp [lowerL, hslen]
    rw [h1, Nat.add_sub_cancel, List.drop_left]
  unfold endsWithL at hu
  rw [show (str "where").length = 5 from rfl, hdrop, heq] at hu
  simp at hu

theorem rev_nonspace_append (u v : List Char) (hvne : ¬ v = [])
    (hv : v.reverse.takeWhile pySpace = []) :
    (u ++ v).reverse.takeWhile pySpace = [] := by
  rw [List.reverse_append]
  cases hrev : v.reverse with
  | nil =>
    exact absurd (by simpa using congrArg List.reverse hrev) hvne
  | cons c rest =>
    rw [hrev] at hv
    by_cases hc : pySpace c = true
    · rw [List.takeWhile_cons_of_pos hc] at hv
      cases hv
    · show ((c :: rest) ++ u.reverse).takeWhile pySpace = []
      rw [List.cons_append,
        List.takeWhile_cons_of_neg (by simp [hc])]

theorem fromTermAt_space_word (b0 : Char) (bs Z : List Char)
    (hb0 : wordChar b0 = true) (hbs : bs.all wordChar = true)
    (hne : ¬ lowerL ((b0 :: bs).take 4) = str "from") :
    fromTermAt (' ' :: ((b0 :: bs) ++ (' ' :: Z))) = false := by
  have hct := ciTest_false_word_space b0 bs Z hb0 hbs hne
  have h1 : wsRun (' ' :: ((b0 :: bs) ++ (' ' :: Z))) = [' '] := by
    unfold wsRun
    rw [List.takeWhile_cons_of_pos (by decide)]
    rw [show (b0 :: bs) ++ (' ' :: Z) = b0 :: (bs ++ ' ' :: Z) from rfl]
    rw [List.takeWhile_cons_of_neg (by simp [wordChar_not_space hb0])]
  unfold fromTermAt
  simp only [decide_eq_false_iff_not]
  rintro ⟨-, h2⟩
  rw [h1] at h2
  simp only [List.length_cons, List.length_nil, List.drop_succ_cons, List.drop_zero] at h2
  rw [hct] at h2
  cases h2

theorem fromTermAt_from (Z : List Char) :
    fromTermAt (' ' :: (str "FROM " ++ Z)) = true := by
  have h1 : wsRun (' ' :: (str "FROM " ++ Z)) = [' '] := by
    unfold wsRun
    rw [show str "FROM " ++ Z = 'F' :: (str "ROM " ++ Z) from rfl]
    rw [List.takeWhile_cons_of_pos (by decide), List.takeWhile_cons_of_neg (by decide)]
  unfold fromTermAt
  simp only [decide_eq_true_eq]
  rw [h1]
  refine ⟨by simp, ?_⟩
  simp only [List.length_cons, List.length_nil, List.drop_succ_cons, List.drop_zero]
  unfold ciTest
  rw [ciDrop_append Z (show ciDrop (str "from") (str "FROM ") = some (str " ") from by decide)]
  rfl

theorem fromScan_c1 (a b t : List Char)
    (ha : a.all wordChar = true) (hna : ¬ a = [])
    (hbw : b.all wordChar = true) (hnb : ¬ b = [])
    (hb7 : ¬ lowerL (b.take 4) = str "from") :
    fromScan (a ++ (str ", " ++ (b ++ (str " FROM " ++ (t ++ str " WHERE x=1")))))
      = some (a ++ ',' :: ' ' :: b) := by
  obtain ⟨b0, bs, rfl⟩ : ∃ b0 bs, b = b0 :: bs := by
    cases b with
    | nil => exact absurd rfl hnb
    | cons b0 bs => exact ⟨b0, bs, rfl⟩
  simp only [List.all_cons, Bool.and_eq_true] at hbw
  rw [fromScan_word _ _ ha]
  rw [show str ", " ++ ((b0 :: bs) ++ (str " FROM " ++ (t ++ str " WHERE x=1")))
    = ',' :: (' ' :: ((b0 :: bs) ++ (str " FROM " ++ (t ++ str " WHERE x=1")))) from rfl]
  rw [fromScan]
  rw [if_neg (by rw [fromTermAt_cons_nonspace _ _ (by decide)]; simp)]
  rw [fromScan]
  rw [if_neg (by
    rw [show str " FROM " ++ (t ++ str " WHERE x=1")
      = ' ' :: (str "FROM " ++ (t ++ str " WHERE x=1")) from rfl]
    rw [fromTermAt_space_word b0 bs _ hbw.1 hbw.2 hb7]
    simp)]
  rw [fromScan_word _ _ (by simp [List.all_cons, hbw.1, hbw.2])]
  rw [show str " FROM " ++ (t ++ str " WHERE x=1")
    = ' ' :: (str "FROM " ++ (t ++ str " WHERE x=1")) from rfl]
  rw [fromScan]
  rw [if_pos (by rw [fromTermAt_from])]
  simp

theorem headSelect_c1 (a b t : List Char)
    (ha : a.all wordChar = true) (hna : ¬ a = [])
    (hbw : b.all wordChar = true) (hnb : ¬ b = [])
    (hb7 : ¬ lowerL (b.take 4) = str "from") :
    headSelect (c1body a b t) = some (a ++ ',' :: ' ' :: b) := by
  obtain ⟨a0, as, rfl⟩ : ∃ a0 as, a = a0 :: as := by
    cases a with
    | nil => exact absurd rfl hna
    | cons a0 as => exact ⟨a0, as, rfl⟩
  simp only [List.all_cons, Bool.and_eq_true] at ha
  unfold c1body headSelect
  rw [ciDrop_append _ (show ciDrop (str "select") (str "SELECT ") = some (str " ") from by decide)]
  simp only [Option.bind_eq_bind, Option.some_bind]
  have hsh : str " " ++ ((a0 :: as) ++ (str ", " ++ ((b) ++ (str " FROM " ++ (t ++ str " WHERE x=1")))))
      = ' ' :: ((a0 :: as) ++ (str ", " ++ (b ++ (str " FROM " ++ (t ++ str " WHERE x=1"))))) := rfl
  rw [hsh]
  unfold wsRun
  rw [List.takeWhile_cons_of_pos (by decide)]
  rw [show (a0 :: as) ++ (str ", " ++ (b ++ (str " FROM " ++ (t ++ str " WHERE x=1"))))
    = a0 :: (as ++ (str ", " ++ (b ++ (str " FROM " ++ (t ++ str " WHERE x=1"))))) from rfl]
  rw [List.takeWhile_cons_of_neg (by simp [wordChar_not_space ha.1])]
  simp only [List.length_cons, List.length_nil]
  rw [tryKs]
  rw [show ((' ' :: (a0 :: (as ++ (str ", " ++ (b ++ (str " FROM " ++ (t ++ str " WHERE x=1"))))))).drop (0 + 1))
    = (a0 :: as) ++ (str ", " ++ (b ++ (str " FROM " ++ (t ++ str " WHERE x=1")))) from rfl]
  rw [fromScan_c1 (a0 :: as) b t (by simp [List.all_cons, ha.1, ha.2]) (by simp) hbw hnb hb7]

theorem searchSelectFrom_c1 (a b t : List Char)
    (ha : a.all wordChar = true) (hna : ¬ a = [])
    (hbw : b.all wordChar = true) (hnb : ¬ b = [])
    (hb7 : ¬ lowerL (b.take 4) = str "from") :
    searchSelectFrom (c1body a b t) = some (a ++ ',' :: ' ' :: b) := by
  unfold searchSelectFrom
  rw [show c1body a b t = 'S' :: (str "ELECT "
    ++ (a ++ (str ", " ++ (b ++ (str " FROM " ++ (t ++ str " WHERE x=1")))))) from rfl]
  exact scanFirst_cons_some (headSelect_c1 a b t ha hna hbw hnb hb7)

theorem searchSelectFrom_c1as (a b t : List Char)
    (ha : a.all wordChar = true) (hna : ¬ a = [])
    (hbw : b.all wordChar = true) (hnb : ¬ b = [])
    (hb7 : ¬ lowerL (b.take 4) = str "from") :
    searchSelectFrom (str "AS " ++ c1body a b t) = some (a ++ ',' :: ' ' :: b) := by
  unfold searchSelectFrom
  rw [show str "AS " ++ c1body a b t = 'A' :: (str "S " ++ c1body a b t) from rfl]
  rw [scanFirst_cons_none (headSelect_cons_nons 'A' _ (by decide))]
  rw [show str "S " ++ c1body a b t
    = 'S' :: (str " " ++ c1body a b t) from rfl]
  rw [scanFirst_cons_none (show headSelect ('S' :: (str " " ++ c1body a b t)) = none from by
    rw [show 'S' :: (str " " ++ c1body a b t) = str "S SELECT "
      ++ (a ++ (str ", " ++ (b ++ (str " FROM " ++ (t ++ str " WHERE x=1"))))) from rfl]
    exact headSelect_append_none (str "S SELECT ") _ (by decide) (by decide))]
  rw [show str " " ++ c1body a b t = ' ' :: c1body a b t from rfl]
  rw [scanFirst_cons_none (headSelect_cons_nons ' ' _ (by decide))]
  rw [show c1body a b t = 'S' :: (str "ELECT "
    ++ (a ++ (str ", " ++ (b ++ (str " FROM " ++ (t ++ str " WHERE x=1")))))) from rfl]
  exact scanFirst_cons_some (headSelect_c1 a b t ha hna hbw hnb hb7)

theorem extract_columns_c1 (P a b t : List Char)
    (hP : P = [] ∨ P = str "AS ")
    (ha : a.all wordChar = true) (hna : ¬ a = [])
    (hbw : b.all wordChar = true) (hnb : ¬ b = [])
    (ha5 : ¬ upperL a = str "DISTINCT") (hb5 : ¬ upperL b = str "DISTINCT")
    (hb7 : ¬ lowerL (b.take 4) = str "from") :
    extract_columns (P ++ c1body a b t) = [a, b] := by
  have hsearch : searchSelectFrom (P ++ c1body a b t) = some (a ++ ',' :: ' ' :: b) := by
    rcases hP with rfl | rfl
    · rw [List.nil_append]
      exact searchSelectFrom_c1 a b t ha hna hbw hnb hb7
    · exact searchSelectFrom_c1as a b t ha hna hbw hnb hb7
  unfold extract_columns
  rw [hsearch]
  dsimp only
  have hsplit : splitOnChar ',' (a ++ ',' :: ' ' :: b) = [a, ' ' :: b] := by
    rw [splitOnChar_head_seg ',' a (' ' :: b) (fun c hc he => by
      have := List.all_eq_true.mp ha c hc
      rw [he] at this
      exact absurd this (by decide))]
    rw [splitOnChar_no_sep ',' (' ' :: b) (by
      intro c hc he
      rcases List.mem_cons.mp hc with rfl | hcb
      · cases he
      · have := List.all_eq_true.mp hbw c hcb
        rw [he] at this
        exact absurd this (by decide))]
  rw [hsplit]
  simp only [List.filterMap_cons, List.filterMap_nil]
  rw [colName_word a ha hna, colName_space_word b hbw hnb]
  rw [if_pos ⟨by simp [List.isEmpty_iff, hna], upperL_ne_star ha, ha5⟩]
  rw [if_pos ⟨by simp [List.isEmpty_iff, hnb], upperL_ne_star hbw, hb5⟩]

theorem scanWhere_c1body (a b t : List Char)
    (ha : a.all wordChar = true) (hbw : b.all wordChar = true)
    (htw : t.all wordChar = true)
    (hb8 : endsWithL (str "where") (lowerL b) = false)
    (ht8 : endsWithL (str "where") (lowerL t) = false) :
    scanFirst headWhere (c1body a b t) = some (str "x=1") := by
  unfold c1body
  rw [scanFirst_append_none headWhere (str "SELECT ") _ (fun c s hs =>
    headWhere_cons_nonw c _
      ((show ∀ d ∈ str "SELECT ", ¬ lowerC d = 'w' from by decide) c
        (hs.subset (List.mem_cons_self c s))))]
  rw [scanFirst_append_none headWhere a _ (fun c s hs => by
    have hcs : (c :: s).all wordChar = true := all_of_suffix hs ha
    simp only [List.all_cons, Bool.and_eq_true] at hcs
    exact headWhere_word_comma c s _ hcs.1 hcs.2)]
  rw [scanFirst_append_none headWhere (str ", ") _ (fun c s hs =>
    headWhere_cons_nonw c _
      ((show ∀ d ∈ str ", ", ¬ lowerC d = 'w' from by decide) c
        (hs.subset (List.mem_cons_self c s))))]
  rw [scanFirst_append_none headWhere b _ (fun c s hs => by
    have hcs : (c :: s).all wordChar = true := all_of_suffix hs hbw
    simp only [List.all_cons, Bool.and_eq_true] at hcs
    exact headWhere_word_space c s _ hcs.1 hcs.2 (suffix_not_where hb8 (c :: s) hs))]
  rw [scanFirst_append_none headWhere (str " FROM ") _ (fun c s hs =>
    headWhere_cons_nonw c _
      ((show ∀ d ∈ str " FROM ", ¬ lowerC d = 'w' from by decide) c
        (hs.subset (List.mem_cons_self c s))))]
  rw [scanFirst_append_none headWhere t _ (fun c s hs => by
    have hcs : (c :: s).all wordChar = true := all_of_suffix hs htw
    simp only [List.all_cons, Bool.and_eq_true] at hcs
    exact headWhere_word_space c s _ hcs.1 hcs.2 (suffix_not_where ht8 (c :: s) hs))]
  rw [show str " WHERE x=1" = ' ' :: str "WHERE x=1" from rfl]
  rw [scanFirst_cons_none (headWhere_cons_nonw ' ' _ (by decide))]
  rw [show str "WHERE x=1" = 'W' :: str "HERE x=1" from rfl]
  exact scanFirst_cons_some (by decide)

theorem extract_where_c1 (P a b t : List Char)
    (hP : P = [] ∨ P = str "AS ")
    (ha : a.all wordChar = true) (hbw : b.all wordChar = true)
    (htw : t.all wordChar = true)
    (hb8 : endsWithL (str "where") (lowerL b) = false)
    (ht8 : endsWithL (str "where") (lowerL t) = false) :
    extract_where_clause (P ++ c1body a b t) = some (str "x=1") := by
  have hscan : scanFirst headWhere (P ++ c1body a b t) = some (str "x=1") := by
    rcases hP with rfl | rfl
    · rw [List.nil_append]
      exact scanWhere_c1body a b t ha hbw htw hb8 ht8
    · rw [show str "AS " ++ c1body a b t = 'A' :: (str "S " ++ c1body a b t) from rfl]
      rw [scanFirst_cons_none (headWhere_cons_nonw 'A' _ (by decide))]
      rw [show str "S " ++ c1body a b t = 'S' :: (str " " ++ c1body a b t) from rfl]
      rw [scanFirst_cons_none (headWhere_cons_nonw 'S' _ (by decide))]
      rw [show str " " ++ c1body a b t = ' ' :: c1body a b t from rfl]
      rw [scanFirst_cons_none (headWhere_cons_nonw ' ' _ (by decide))]
      exact scanWhere_c1body a b t ha hbw htw hb8 ht8
  unfold extract_where_clause
  rw [hscan]
  rw [show Option.map stripL (some (str "x=1")) = some (stripL (str "x=1")) from rfl]
  rw [show stripL (str "x=1") = str "x=1" from by decide]

theorem suffix_not_ci {pat u : List Char} (hu : endsWithL pat (lowerL u) = false) :
    ∀ s, s <:+ u → ¬ lowerL s = pat := by
  intro s hs heq
  obtain ⟨p, hp⟩ := hs
  have hslen : s.length = pat.length := by
    have := congrArg List.length heq
    simpa [lowerL] using this
  have hle : (lowerL u) = lowerL p ++ lowerL s := by
    rw [← hp]
    simp [lowerL]
  have hdrop : (lowerL u).drop ((lowerL u).length - pat.length) = lowerL s := by
    rw [hle]
    have h1 : (lowerL p ++ lowerL s).length = (lowerL p).length + pat.length := by
      simp [lowerL, hslen]
    rw [h1, Nat.add_sub_cancel, List.drop_left]
  unfold endsWithL at hu
  rw [hdrop, heq] at hu
  simp at hu

theorem headAs_lit_skip (x y : List Char)
    (hx : ∀ k, k < x.length →
      ¬ lowerC ((x.drop k).headD ' ') = 'a'
      ∨ (2 ≤ (x.drop k).length ∧ ¬ lowerL ((x.drop k).take 2) = str "as")) :
    scanFirst headAs (x ++ y) = scanFirst headAs y := by
  refine scanFirst_append_none headAs x y (fun c s hs => ?_)
  have hlen : (c :: s).length ≤ x.length := hs.length_le
  have hk : x.drop (x.length - (c :: s).length) = c :: s := by
    obtain ⟨p, hp⟩ := hs
    rw [← hp]
    rw [show (p ++ (c :: s)).length - (c :: s).length = p.length from by simp]
    exact List.drop_left p (c :: s)
  have hklt : x.length - (c :: s).length < x.length := by
    simp only [List.length_cons] at hlen ⊢
    omega
  have hcase := hx _ hklt
  rw [hk] at hcase
  rcases hcase with h1 | ⟨h2, h3⟩
  · exact headAs_cons_nona c _ (by simpa using h1)
  · exact headAs_append_none (c :: s) y h2 h3

theorem endsWith_as_decomp (nm : List Char) (hnm : nm.all wordChar = true)
    (h : endsWithL (str "as") (lowerL nm) = true) :
    ∃ nm0 c1 c2, nm = nm0 ++ [c1, c2] ∧ lowerL [c1, c2] = str "as"
      ∧ nm0.all wordChar = true ∧ wordChar c1 = true ∧ wordChar c2 = true := by
  unfold endsWithL at h
  simp only [decide_eq_true_eq] at h
  have hlnm : (lowerL nm).length = nm.length := by simp [lowerL]
  have hlen2 : 2 ≤ nm.length := by
    have hh := congrArg List.length h
    rw [List.length_drop] at hh
    simp only [hlnm] at hh
    rw [show (str "as").length = 2 from rfl] at hh
    omega
  have hsfxlen : (nm.drop (nm.length - 2)).length = 2 := by
    rw [List.length_drop]
    omega
  obtain ⟨c1, c2, hsfx⟩ : ∃ c1 c2, nm.drop (nm.length - 2) = [c1, c2] := by
    cases lst : nm.drop (nm.length - 2) with
    | nil => rw [lst] at hsfxlen; cases hsfxlen
    | cons c1 r =>
      cases r with
      | nil => rw [lst] at hsfxlen; cases hsfxlen
      | cons c2 r2 =>
        cases r2 with
        | nil => exact ⟨c1, c2, rfl⟩
        | cons c3 r3 => rw [lst] at hsfxlen; cases hsfxlen
  have hlowsfx : lowerL [c1, c2] = str "as" := by
    rw [← hsfx]
    have hmd : lowerL (nm.drop (nm.length - 2)) = (lowerL nm).drop (nm.length - 2) := by
      simp [lowerL, List.map_drop]
    rw [hmd]
    rw [show (str "as").length = 2 from rfl, hlnm] at h
    exact h
  refine ⟨nm.take (nm.length - 2), c1, c2, ?_, hlowsfx, ?_, ?_, ?_⟩
  · rw [← hsfx]
    exact (List.take_append_drop _ nm).symm
  · rw [List.all_eq_true] at hnm ⊢
    exact fun d hd => hnm d (List.take_subset _ _ hd)
  · exact List.all_eq_true.mp hnm c1
      (List.drop_subset _ nm (by rw [hsfx]; exact List.mem_cons_self _ _))
  · exact List.all_eq_true.mp hnm c2
      (List.drop_subset _ nm (by rw [hsfx]; simp))

theorem searchAs_c1 (nm a b t : List Char)
    (hnm : nm.all wordChar = true) (hnmne : ¬ nm = []) :
    ∃ P, (P = [] ∨ P = str "AS ")
      ∧ searchAs (str "CREATE OR REPLACE VIEW " ++ (nm ++ (str " AS " ++ c1body a b t)))
          = some (P ++ c1body a b t) := by
  unfold searchAs
  rw [headAs_lit_skip (str "CREATE OR REPLACE VIEW ") _ (by decide)]
  by_cases hsuf : endsWithL (str "as") (lowerL nm) = true
  · obtain ⟨nm0, c1, c2, hdec, hlow, hnm0, hc1, hc2⟩ := endsWith_as_decomp nm hnm hsuf
    refine ⟨str "AS ", Or.inr rfl, ?_⟩
    rw [hdec, List.append_assoc nm0 [c1, c2] _]
    rw [scanFirst_append_none headAs nm0 _ (fun c s hs => by
      have hcs : (c :: s).all wordChar = true := all_of_suffix hs hnm0
      simp only [List.all_cons, Bool.and_eq_true] at hcs
      exact headAs_word_word c s c1 c2 _ hcs.1 hcs.2 hc1 hc2)]
    rw [show [c1, c2] ++ (str " AS " ++ c1body a b t)
      = c1 :: (c2 :: (str " AS " ++ c1body a b t)) from rfl]
    refine scanFirst_cons_some ?_
    unfold headAs
    rw [show c1 :: (c2 :: (str " AS " ++ c1body a b t))
      = [c1, c2] ++ (str " AS " ++ c1body a b t) from rfl]
    rw [ciDrop_seg [c1, c2] _ hlow]
    simp only [Option.bind_eq_bind, Option.some_bind]
    rw [show str " AS " ++ c1body a b t = ' ' :: (str "AS " ++ c1body a b t) from rfl]
    exact ws1_space_word _ (by
      rw [show str "AS " ++ c1body a b t = 'A' :: (str "S " ++ c1body a b t) from rfl]
      rw [List.takeWhile_cons_of_neg (by decide)])
  · have hssuf := @suffix_not_ci (str "as") nm (by
      rw [Bool.not_eq_true] at hsuf
      exact hsuf)
    refine ⟨[], Or.inl rfl, ?_⟩
    rw [List.nil_append]
    rw [scanFirst_append_none headAs nm _ (fun c s hs => by
      have hcs : (c :: s).all wordChar = true := all_of_suffix hs hnm
      simp only [List.all_cons, Bool.and_eq_true] at hcs
      exact headAs_word_space c s _ hcs.1 hcs.2 (hssuf (c :: s) hs))]
    rw [show str " AS " ++ c1body a b t = ' ' :: (str "AS " ++ c1body a b t) from rfl]
    rw [scanFirst_cons_none (headAs_cons_nona ' ' _ (by decide))]
    rw [show str "AS " ++ c1body a b t = 'A' :: (str "S " ++ c1body a b t) from rfl]
    refine scanFirst_cons_some ?_
    unfold headAs
    rw [show 'A' :: (str "S " ++ c1body a b t)
      = str "AS" ++ (str " " ++ c1body a b t) from rfl]
    rw [ciDrop_seg (str "AS") _ (by decide)]
    simp only [Option.bind_eq_bind, Option.some_bind]
    rw [show str " " ++ c1body a b t = ' ' :: c1body a b t from rfl]
    exact ws1_space_word _ (by
      rw [show c1body a b t = 'S' :: (str "ELECT "
        ++ (a ++ (str ", " ++ (b ++ (str " FROM " ++ (t ++ str " WHERE x=1")))))) from rfl]
      rw [List.takeWhile_cons_of_neg (by decide)])

theorem headView_c1 (nm rest : List Char)
    (hnm : nm.all wordChar = true) (hnmne : ¬ nm = []) :
    headView (str "CREATE OR REPLACE VIEW " ++ (nm ++ (' ' :: rest))) = some nm := by
  unfold headView
  rw [ciDrop_append _ (show ciDrop (str "create") (str "CREATE OR REPLACE VIEW ")
    = some (str " OR REPLACE VIEW ") from by decide)]
  simp only [Option.bind_eq_bind, Option.some_bind]
  rw [ws1_append _ (show ws1 (str " OR REPLACE VIEW ")
    = some (str "OR REPLACE VIEW ") from by decide) (by decide)]
  simp only [Option.bind_eq_bind, Option.some_bind]
  have hinner : (do
      let a2 ← ciDrop (str "or") (str "OR REPLACE VIEW " ++ (nm ++ (' ' :: rest)))
      let b2 ← ws1 a2
      let c2 ← ciDrop (str "replace") b2
      ws1 c2) = some (str "VIEW " ++ (nm ++ (' ' :: rest))) := by
    rw [ciDrop_append _ (show ciDrop (str "or") (str "OR REPLACE VIEW ")
      = some (str " REPLACE VIEW ") from by decide)]
    simp only [Option.bind_eq_bind, Option.some_bind]
    rw [ws1_append _ (show ws1 (str " REPLACE VIEW ")
      = some (str "REPLACE VIEW ") from by decide) (by decide)]
    simp only [Option.bind_eq_bind, Option.some_bind]
    rw [ciDrop_append _ (show ciDrop (str "replace") (str "REPLACE VIEW ")
      = some (str " VIEW ") from by decide)]
    simp only [Option.bind_eq_bind, Option.some_bind]
    exact ws1_append _ (show ws1 (str " VIEW ") = some (str "VIEW ") from by decide) (by decide)
  simp only [Option.bind_eq_bind, Option.some_bind] at hinner
  rw [hinner]
  dsimp only
  rw [ciDrop_append _ (show ciDrop (str "view") (str "VIEW ") = some (str " ") from by decide)]
  simp only [Option.bind_eq_bind, Option.some_bind]
  rw [show str " " ++ (nm ++ (' ' :: rest)) = ' ' :: (nm ++ (' ' :: rest)) from rfl]
  rw [ws1_space_word _ (by
    obtain ⟨n0, ns, rfl⟩ : ∃ n0 ns, nm = n0 :: ns := by
      cases nm with
      | nil => exact absurd rfl hnmne
      | cons n0 ns => exact ⟨n0, ns, rfl⟩
    simp only [List.all_cons, Bool.and_eq_true] at hnm
    rw [show (n0 :: ns) ++ (' ' :: rest) = n0 :: (ns ++ ' ' :: rest) from rfl]
    rw [List.takeWhile_cons_of_neg (by simp [wordChar_not_space hnm.1])])]
  simp only [Option.bind_eq_bind, Option.some_bind]
  unfold identCap
  rw [wordRun_all_boundary nm hnm hnmne ' ' rest (by decide)]
  simp only [Option.map_some']
  rw [dotTail_not_dot nm ' ' rest (by decide)]
  rfl

theorem get_object_type_c1 (R : List Char) :
    get_object_type (str "CREATE OR REPLACE VIEW " ++ R) = some SQLObjectType.VIEW := by
  unfold get_object_type
  dsimp only
  rw [if_pos (by
    rw [upperL_append,
      show upperL (str "CREATE OR REPLACE VIEW ") = str "CREATE OR REPLACE VIEW " from by decide]
    exact startsWithL_append_left _ _ _ (by decide))]

theorem parse_statement_view_eval (s nm : List Char) (c0 : Char) (cs : List Char)
    (hshape : s = c0 :: cs)
    (hstrip : stripL s = s)
    (hty : get_object_type s = some SQLObjectType.VIEW)
    (hname : extract_object_name s SQLObjectType.VIEW = some nm) (hnm : ¬ nm = []) :
    parse_statement s = some (parse_view_or_mv s nm SQLObjectType.VIEW (extract_comments s)) := by
  unfold parse_statement
  dsimp only
  rw [hstrip]
  rw [hshape]
  rw [if_neg (by simp)]
  rw [← hshape]
  rw [hty]
  dsimp only
  rw [hname]
  dsimp only
  rw [if_neg (by simpa [List.isEmpty_iff] using hnm)]

theorem append_ne_nil_of_right {u v : List Char} (hv : ¬ v = []) : ¬ u ++ v = [] := by
  intro h
  exact hv (List.append_eq_nil.mp h).2

theorem c1body_ne_nil (a b t : List Char) : ¬ c1body a b t = [] := by
  unfold c1body
  intro h
  exact absurd (List.append_eq_nil.mp h).1 (by decide)

theorem c1body_rev_nil (a b t : List Char) :
    (c1body a b t).reverse.takeWhile pySpace = [] := by
  unfold c1body
  have h9 : ¬ str " WHERE x=1" = [] := by decide
  have h8 := rev_nonspace_append t _ h9 (by decide)
  have h7 := rev_nonspace_append (str " FROM ") _ (append_ne_nil_of_right h9) h8
  have h6 := rev_nonspace_append b _
    (append_ne_nil_of_right (append_ne_nil_of_right h9)) h7
  have h5 := rev_nonspace_append (str ", ") _
    (append_ne_nil_of_right (append_ne_nil_of_right (append_ne_nil_of_right h9))) h6
  have h4 := rev_nonspace_append a _
    (append_ne_nil_of_right (append_ne_nil_of_right
      (append_ne_nil_of_right (append_ne_nil_of_right h9)))) h5
  exact rev_nonspace_append (str "SELECT ") _
    (append_ne_nil_of_right (append_ne_nil_of_right
      (append_ne_nil_of_right (append_ne_nil_of_right (append_ne_nil_of_right h9))))) h4

theorem stripG (P a b t : List Char) (hP : P = [] ∨ P = str "AS ") :
    stripL (P ++ c1body a b t) = P ++ c1body a b t := by
  refine stripL_eq_self ?_ ?_
  · rcases hP with rfl | rfl
    · rw [List.nil_append]
      rw [show c1body a b t = 'S' :: (str "ELECT "
        ++ (a ++ (str ", " ++ (b ++ (str " FROM " ++ (t ++ str " WHERE x=1")))))) from rfl]
      rw [List.takeWhile_cons_of_neg (by decide)]
    · rw [show str "AS " ++ c1body a b t = 'A' :: (str "S " ++ c1body a b t) from rfl]
      rw [List.takeWhile_cons_of_neg (by decide)]
  · exact rev_nonspace_append P _ (c1body_ne_nil a b t) (c1body_rev_nil a b t)

theorem stripS (nm a b t : List Char) :
    stripL (str "CREATE OR REPLACE VIEW " ++ (nm ++ (str " AS " ++ c1body a b t)))
      = str "CREATE OR REPLACE VIEW " ++ (nm ++ (str " AS " ++ c1body a b t)) := by
  refine stripL_eq_self ?_ ?_
  · rw [show str "CREATE OR REPLACE VIEW " ++ (nm ++ (str " AS " ++ c1body a b t))
      = 'C' :: (str "REATE OR REPLACE VIEW " ++ (nm ++ (str " AS " ++ c1body a b t))) from rfl]
    rw [List.takeWhile_cons_of_neg (by decide)]
  · refine rev_nonspace_append _ _ ?_ ?_
    · exact append_ne_nil_of_right
        (append_ne_nil_of_right (c1body_ne_nil a b t))
    · refine rev_nonspace_append _ _ ?_ ?_
      · exact append_ne_nil_of_right (c1body_ne_nil a b t)
      · exact rev_nonspace_append _ _ (c1body_ne_nil a b t) (c1body_rev_nil a b t)

/-- C1, amended.  For every statement CREATE OR REPLACE VIEW nm AS SELECT a,
b FROM t WHERE x=1 over word identifiers, provided neither column uppercases
to the reserved DISTINCT token, b does not begin case-insensitively with FROM,
and neither b nor t ends case-insensitively in WHERE (the patterns have no
word-boundary assertions, so such identifiers capture the wrong spans, as the
counterexample shows), the extractor emits one object with kind VIEW, the
name after VIEW, columns [a, b] and where-clause x=1. -/
theorem c1_amended (nm a b t : List Char)
    (hn : isWordIdent nm = true) (hai : isWordIdent a = true)
    (hbi : isWordIdent b = true) (hti : isWordIdent t = true)
    (ha5 : ¬ upperL a = str "DISTINCT") (hb5 : ¬ upperL b = str "DISTINCT")
    (hb7 : startsWithL (str "from") (lowerL b) = false)
    (hb8 : endsWithL (str "where") (lowerL b) = false)
    (ht8 : endsWithL (str "where") (lowerL t) = false) :
    (parse_statement (mkViewStmt nm a b t)).map
      (fun o => (o.name, o.type, o.columns, o.where_clause))
      = some (nm, SQLObjectType.VIEW, [a, b], some (str "x=1")) := by
  have hno : ¬ nm = [] ∧ nm.all wordChar = true := by
    simpa [isWordIdent, List.isEmpty_iff] using hn
  have hao : ¬ a = [] ∧ a.all wordChar = true := by
    simpa [isWordIdent, List.isEmpty_iff] using hai
  have hbo : ¬ b = [] ∧ b.all wordChar = true := by
    simpa [isWordIdent, List.isEmpty_iff] using hbi
  have hto : ¬ t = [] ∧ t.all wordChar = true := by
    simpa [isWordIdent, List.isEmpty_iff] using hti
  have hb7' : ¬ lowerL (b.take 4) = str "from" := by
    rw [show lowerL (b.take 4) = (lowerL b).take 4 from by simp [lowerL, List.map_take]]
    simp only [startsWithL, decide_eq_false_iff_not] at hb7
    exact hb7
  have hassoc : mkViewStmt nm a b t
      = str "CREATE OR REPLACE VIEW " ++ (nm ++ (str " AS " ++ c1body a b t)) := by
    unfold mkViewStmt c1body
    rw [show str " AS SELECT " = str " AS " ++ str "SELECT " from by decide]
    simp [List.append_assoc]
  obtain ⟨P, hP, hAs⟩ := searchAs_c1 nm a b t hno.2 hno.1
  have hps : parse_statement (mkViewStmt nm a b t)
      = some (parse_view_or_mv (mkViewStmt nm a b t) nm SQLObjectType.VIEW
          (extract_comments (mkViewStmt nm a b t))) := by
    refine parse_statement_view_eval _ nm 'C'
      (str "REATE OR REPLACE VIEW " ++ (nm ++ (str " AS " ++ c1body a b t))) ?_ ?_ ?_ ?_ hno.1
    · rw [hassoc]
      rfl
    · rw [hassoc]
      exact stripS nm a b t
    · rw [hassoc]
      exact get_object_type_c1 _
    · rw [hassoc]
      show scanFirst headView (str "CREATE OR REPLACE VIEW "
        ++ (nm ++ (str " AS " ++ c1body a b t))) = some nm
      rw [show str "CREATE OR REPLACE VIEW " ++ (nm ++ (str " AS " ++ c1body a b t))
        = 'C' :: (str "REATE OR REPLACE VIEW "
          ++ (nm ++ (str " AS " ++ c1body a b t))) from rfl]
      exact scanFirst_cons_some (headView_c1 nm (str "AS " ++ c1body a b t) hno.2 hno.1)
  rw [hps]
  unfold parse_view_or_mv
  rw [show searchAs (mkViewStmt nm a b t) = some (P ++ c1body a b t) from by
    rw [hassoc]
    exact hAs]
  dsimp only
  rw [stripG P a b t hP]
  rw [extract_columns_c1 P a b t hP hao.2 hao.1 hbo.2 hbo.1 ha5 hb5 hb7']
  rw [extract_where_c1 P a b t hP hao.2 hbo.2 hto.2 hb8 ht8]
  rfl

/-- C1, witness for the amended theorem at plain one-letter identifiers. -/
theorem c1_amended_witness :
    (parse_statement (mkViewStmt (str "v") (str "a") (str "b") (str "t"))).map
      (fun o => (o.name, o.type, o.columns, o.where_clause))
      = some (str "v", SQLObjectType.VIEW, [str "a", str "b"], some (str "x=1")) :=
  c1_amended (str "v") (str "a") (str "b") (str "t") (by decide) (by decide) (by decide)
    (by decide) (by decide) (by decide) (by decide) (by decide) (by decide)

/-- C1, counterexample.  The table name anywhere ends in the letters of
WHERE followed by whitespace; the WHERE pattern has no word-boundary
assertion and matches leftmost inside it, so the extracted where_clause is
WHERE x=1, not the x=1 the claim requires, on a statement that is exactly of
the claimed form. -/
theorem c1_counterexample :
    c1whereStmt = mkViewStmt (str "v") (str "a") (str "b") (str "anywhere")
    ∧ (parse_statement c1whereStmt).map
        (fun o => (o.name, o.type, o.columns, o.where_clause))
      = some (str "v", SQLObjectType.VIEW, [str "a", str "b"], some (str "WHERE x=1"))
    ∧ ¬ (parse_statement c1whereStmt).map (fun o => o.where_clause)
        = some (some (str "x=1")) :=
  ⟨by decide, by decide, by decide⟩
